import Mathlib

/-
Verification of the query fetch orchestrator in
`src/legacy/store/GraphQLQueryRunner.js`.

The development shallowly embeds the module as a small-step state machine:

* `ReadyState` / `ReadyStateUpdate` mirror the `ReadyState` record and the
  `PartialReadyState` objects passed to `setReadyState` (absent fields are
  `none`, matching the `partial.x != null` checks).
* `setReadyState` is the function at lines 200-232.  It returns `none` when
  the `invariant(partial.aborted, ...)` call at line 205 would throw.
* `onResolved` / `onRejected` are the fetch-settlement handlers at lines
  237-271; `registerStep` is the body of the `RelayTaskScheduler.await`
  callback at lines 273-308 (taking the already diffed/split query list as
  input); `diskCheckStep` is the `storeData.runWithDiskCache` callback at
  lines 299-305; `abortStep` is the returned handle's `abort` (lines
  313-317); `flushStep` is the `resolveImmediate` task at lines 228-231
  which clears the scheduled flag and invokes the caller's callback with
  the current state.
* `step`/`runTrace` interleave these handlers in any order the host event
  loop could produce: each event is one synchronous turn; `flush` is only
  enabled while a delivery is scheduled, `resolve`/`reject` only for a
  fetch whose promise has not settled yet, `register` and `diskCheck` at
  most once.  `delivered` records the sequence of callback invocations,
  `enqueued` counts `resolveImmediate` calls, and `invariantFailures`
  counts handler turns killed by a thrown `invariant` (the exception
  escapes into an unhandled promise rejection, so the turn simply stops:
  mutations made before the throw persist, the ones after it are lost).

Collaborators (diffing, deferred splitting, the pending-query tracker,
cache resolvability checks) are parameters or oracles, specified only at
their interface boundary.
-/

namespace QueryRunner

/-- A root query as consumed by the runner: stable `id`, whether the query
itself is deferred, and whether it contains a deferred sub-tree. -/
structure Query where
  id : Nat
  isDeferred : Bool
  hasDeferredDescendant : Bool
deriving DecidableEq

/-- The ready-state record delivered to callbacks (lines 192-198).
Errors are represented by numeric identifiers. -/
structure ReadyState where
  aborted : Bool
  done : Bool
  error : Option Nat
  ready : Bool
  stale : Bool
deriving DecidableEq

/-- The initial ready state built at lines 192-198. -/
def initialReadyState : ReadyState := ⟨false, false, none, false, false⟩

/-- An update object passed to `setReadyState`; a field that the caller
did not put on the object is `none` (the code tests `partial.x != null`). -/
structure ReadyStateUpdate where
  aborted : Option Bool
  done : Option Bool
  error : Option Nat
  ready : Option Bool
  stale : Option Bool
deriving DecidableEq

/-- The field-by-field merge at lines 217-223: a field present in the
update overwrites the stored field, an absent field is preserved. -/
def applyUpdate (s : ReadyState) (p : ReadyStateUpdate) : ReadyState :=
  ⟨ p.aborted.getD s.aborted
  , p.done.getD s.done
  , match p.error with
    | some e => some e
    | none => s.error
  , p.ready.getD s.ready
  , p.stale.getD s.stale ⟩

/-- `DliteFetchModeConstants`: CLIENT diffs against the cache, REFETCH is
force-fetch, PRELOAD exists but adds no behaviour in this module. -/
inductive FetchMode
  | client
  | refetch
  | preload
deriving DecidableEq

/-- The mutable closure state of one `runQueries` invocation, together
with observation ghosts (`delivered`, `enqueued`, `invariantFailures`)
and scheduling bookkeeping (`unsettled`, `registered`,
`diskCheckPending`) that records which asynchronous turns are still
possible. -/
structure RunnerState where
  readyState : ReadyState
  scheduled : Bool
  enqueued : Nat
  delivered : List ReadyState
  remaining : List Query
  remainingRequired : List Query
  unsettled : List Query
  registered : Bool
  diskCheckPending : Bool
  genCalls : Nat
  forceIndex : Option Nat
  invariantFailures : Nat
deriving DecidableEq

/-- State at the moment `runQueries` returns its `Abortable`: nothing has
run yet except the synchronous variable initialisations. -/
def initRunnerState : RunnerState :=
  ⟨initialReadyState, false, 0, [], [], [], [], false, false, 0, none, 0⟩

/-- Key-based removal from an id-keyed object map
(`delete map[queryID]`). -/
def mapDelete (m : List Query) (qid : Nat) : List Query :=
  m.filter (fun q => q.id != qid)

/-- Key-based insertion into an id-keyed object map
(`map[queryID] = fetch`): overwrites an existing entry in place,
otherwise appends. -/
def mapInsert (m : List Query) (q : Query) : List Query :=
  if m.any (fun r => r.id == q.id) then
    m.map (fun r => if r.id == q.id then q else r)
  else m ++ [q]

/-- `hasItems` (lines 139-141): the object map has at least one key. -/
def hasItems (m : List Query) : Bool := !m.isEmpty

/-- `setReadyState` (lines 200-232).  Returns `none` when the
`invariant(partial.aborted, ...)` at line 205 throws (update after
`done`/`error` that does not set `aborted`); otherwise returns the new
closure state: an early return when already aborted; an accepted-but-
ignored update after `done`/`error` that does set `aborted`; or the merge
at lines 217-223 followed by scheduling one `resolveImmediate` delivery
unless one is already scheduled (lines 224-231). -/
def setReadyState (st : RunnerState) (p : ReadyStateUpdate) : Option RunnerState :=
  if st.readyState.aborted = true then some st
  else if st.readyState.done = true ∨ st.readyState.error.isSome = true then
    if p.aborted = some true then some st else none
  else if st.scheduled = true then
    some { st with readyState := applyUpdate st.readyState p }
  else
    some { st with
      readyState := applyUpdate st.readyState p
      scheduled := true
      enqueued := st.enqueued + 1 }

/-- Runs the remainder of a handler turn after a `setReadyState` call:
if the call threw (`none`), the turn dies with the state it had before
the call and the failure is counted; otherwise the turn continues with
the returned state. -/
def orCrash (st : RunnerState) (r : Option RunnerState) : RunnerState :=
  match r with
  | some st2 => st2
  | none => { st with invariantFailures := st.invariantFailures + 1 }

/-- Second half of `onResolved` (lines 245-259), after the map
deletions: stop if required fetches remain; stop if some still-remaining
fetch reports itself resolvable (`resolvableIds` is the oracle for
`query.isResolvable()` at this instant); otherwise emit ready (done iff
nothing remains), always with `stale: false`. -/
def onResolvedEmit (resolvableIds : List Nat) (st : RunnerState) : RunnerState :=
  if hasItems st.remainingRequired then st
  else if st.remaining.any (fun r => resolvableIds.contains r.id) then st
  else if hasItems st.remaining then
    orCrash st (setReadyState st ⟨none, some false, none, some true, some false⟩)
  else
    orCrash st (setReadyState st ⟨none, some true, none, some true, some false⟩)

/-- First half of `onResolved` (lines 238-243): delete the settled query
from the remaining map and, when it is not deferred, from the required
map. -/
def onResolvedDel (q : Query) (st0 : RunnerState) : RunnerState :=
  { st0 with
    remaining := mapDelete st0.remaining q.id
    remainingRequired :=
      if q.isDeferred then st0.remainingRequired
      else mapDelete st0.remainingRequired q.id }

/-- `onResolved` (lines 237-260): delete the settled query from the
maps, then decide what to emit. -/
def onResolved (resolvableIds : List Nat) (q : Query) (st0 : RunnerState) : RunnerState :=
  onResolvedEmit resolvableIds (onResolvedDel q st0)

/-- `onRejected` (lines 262-271): emit the error first, then delete the
query from both maps.  When the emission throws (a second terminal
update), the deletions are never reached. -/
def onRejected (e : Nat) (q : Query) (st : RunnerState) : RunnerState :=
  match setReadyState st ⟨none, none, some e, none, none⟩ with
  | none => { st with invariantFailures := st.invariantFailures + 1 }
  | some st1 =>
    { st1 with
      remaining := mapDelete st1.remaining q.id
      remainingRequired :=
        if q.isDeferred then st1.remainingRequired
        else mapDelete st1.remainingRequired q.id }

/-- Readiness fast path of the `RelayTaskScheduler.await` body (lines
292-307), after the maps are populated: done+ready when nothing needs
fetching, ready when everything outstanding is deferred, otherwise
not-ready plus a scheduled disk-cache check. -/
def registerEmit (st : RunnerState) : RunnerState :=
  if hasItems st.remaining = false then
    orCrash st (setReadyState st ⟨none, some true, none, some true, none⟩)
  else if hasItems st.remainingRequired = false then
    orCrash st (setReadyState st ⟨none, none, none, some true, none⟩)
  else
    { orCrash st (setReadyState st ⟨none, none, none, some false, none⟩) with
      diskCheckPending := true }

/-- The `RelayTaskScheduler.await` body (lines 273-308), taking the
already diffed/split query list `qs`: generate a force index for REFETCH
(`genCalls` counts `generateForceIndex` calls), register every query in
the remaining map and non-deferred queries in the required map, start
their fetches (`unsettled`), then take the readiness fast path. -/
def registerStep (mode : FetchMode) (qs : List Query) (st0 : RunnerState) : RunnerState :=
  registerEmit
    { st0 with
      registered := true
      genCalls := if mode = FetchMode.refetch then st0.genCalls + 1 else st0.genCalls
      forceIndex := if mode = FetchMode.refetch then some st0.genCalls else none
      remaining := qs.foldl mapInsert st0.remaining
      remainingRequired :=
        qs.foldl (fun m q => if q.isDeferred then m else mapInsert m q) st0.remainingRequired
      unsettled := qs.foldl mapInsert st0.unsettled }

/-- Body of the `storeData.runWithDiskCache` callback (lines 300-304):
emit ready+stale when required fetches remain and every one of them is
resolvable from the disk-backed queued store. -/
def diskCheckEmit (canResolveIds : List Nat) (st : RunnerState) : RunnerState :=
  if hasItems st.remainingRequired then
    if st.remainingRequired.all (fun q => canResolveIds.contains q.id) then
      orCrash st (setReadyState st ⟨none, none, none, some true, some true⟩)
    else st
  else st

/-- The `storeData.runWithDiskCache` callback turn (lines 299-305):
`canResolveIds` is the oracle for `canResolve` (`checkRelayQueryData`
against the queued store) at the instant the callback runs. -/
def diskCheckStep (canResolveIds : List Nat) (st0 : RunnerState) : RunnerState :=
  diskCheckEmit canResolveIds { st0 with diskCheckPending := false }

/-- The returned handle's `abort` (lines 313-317). -/
def abortStep (st : RunnerState) : RunnerState :=
  orCrash st (setReadyState st ⟨some true, none, none, none, none⟩)

/-- The `resolveImmediate` task (lines 228-231): clear the scheduled flag
and invoke the caller's callback with the current (fully merged) state. -/
def flushStep (st : RunnerState) : RunnerState :=
  { st with scheduled := false, delivered := st.delivered ++ [st.readyState] }

/-- The closure state midway through the scheduler body when the
invocation starts from scratch: maps populated, force index generated,
fast path not yet taken.  `registerStep mode qs initRunnerState`
definitionally equals `registerEmit (registerInit mode qs)`. -/
def registerInit (mode : FetchMode) (qs : List Query) : RunnerState :=
  { initRunnerState with
    registered := true
    genCalls := if mode = FetchMode.refetch then 1 else 0
    forceIndex := if mode = FetchMode.refetch then some 0 else none
    remaining := qs.foldl mapInsert []
    remainingRequired :=
      qs.foldl (fun m q => if q.isDeferred then m else mapInsert m q) []
    unsettled := qs.foldl mapInsert [] }

/-- The state produced by registration from scratch when the query list
has required entries: not ready, one delivery scheduled, disk-cache check
pending.  `registerEmit (registerInit mode qs)` reduces to this whenever
the remaining map is non-empty and the required map is non-empty. -/
def registerRequiredState (mode : FetchMode) (qs : List Query) : RunnerState :=
  { registerInit mode qs with
    readyState := ⟨false, false, none, false, false⟩
    scheduled := true
    enqueued := 1
    diskCheckPending := true }

/-- `registerRequiredState` at the instant the disk-cache callback
starts running (the pending flag consumed). -/
def registerRequiredDC (mode : FetchMode) (qs : List Query) : RunnerState :=
  { registerRequiredState mode qs with diskCheckPending := false }

/-- One asynchronous turn of the host event loop, from the point of view
of a single invocation. -/
inductive Event
  | register
  | flush
  | diskCheck (canResolveIds : List Nat)
  | resolve (qid : Nat) (resolvableIds : List Nat)
  | reject (qid : Nat) (e : Nat)
  | abortCall
deriving DecidableEq

/-- Which turns are enabled in a given state, and their effect.  `none`
means the turn cannot occur (the scheduler body runs once, a delivery
task only exists while `scheduled`, the disk-cache callback runs once,
and each fetch promise settles once). -/
def step (mode : FetchMode) (qs : List Query) (st : RunnerState) : Event → Option RunnerState
  | Event.register =>
      if st.registered then none else some (registerStep mode qs st)
  | Event.flush =>
      if st.scheduled then some (flushStep st) else none
  | Event.diskCheck ids =>
      if st.diskCheckPending then some (diskCheckStep ids st) else none
  | Event.resolve qid ids =>
      match st.unsettled.find? (fun q => q.id == qid) with
      | some q => some (onResolved ids q { st with unsettled := mapDelete st.unsettled q.id })
      | none => none
  | Event.reject qid e =>
      match st.unsettled.find? (fun q => q.id == qid) with
      | some q => some (onRejected e q { st with unsettled := mapDelete st.unsettled q.id })
      | none => none
  | Event.abortCall => some (abortStep st)

/-- Runs a sequence of asynchronous turns; `none` when some turn in the
sequence is not enabled. -/
def runTrace (mode : FetchMode) (qs : List Query) : RunnerState → List Event → Option RunnerState
  | st, [] => some st
  | st, e :: tr =>
      match step mode qs st e with
      | some st2 => runTrace mode qs st2 tr
      | none => none

/-- What `run`/`forceFetch` hand to `runQueries`: the fetch mode and the
query list built from the query set.  Two invocations with equal
`Invocation` values drive identical `runQueries` closures, and the trace
semantics above consumes exactly these two pieces of data. -/
structure Invocation where
  mode : FetchMode
  queries : List Query
deriving DecidableEq

/-- `run` (lines 79-107): in CLIENT mode each non-null query of the set
is diffed against the store (`diff` is the `diffRelayQuery`
collaborator, returning the residual queries); in any other mode every
non-null query is passed through unchanged. -/
def run (diff : Query → List Query) (querySet : List (Option Query))
    (mode : FetchMode) : Invocation :=
  if mode = FetchMode.client then
    ⟨mode, (querySet.filterMap (fun oq => oq)).foldl (fun acc q => acc ++ diff q) []⟩
  else
    ⟨mode, querySet.filterMap (fun oq => oq)⟩

/-- `forceFetch` (lines 116-128): collect the non-null queries and run
them in REFETCH mode. -/
def forceFetch (querySet : List (Option Query)) : Invocation :=
  ⟨FetchMode.refetch, querySet.filterMap (fun oq => oq)⟩

/-- `splitAndFlattenQueries` (lines 154-184): `supportsDefer` is
`RelayNetworkLayer.supports('defer')` and `splitFlatten` is the composite
collaborator `flattenSplitRelayQueries(splitDeferredRelayQueries(q))`.
Returns the resulting query list and whether the non-fatal warning was
emitted.  When the network layer lacks defer support and some input query
has a deferred descendant, the whole input list is returned unsplit with
a warning; otherwise every query is split and the pieces are flattened in
order. -/
def splitAndFlattenQueries (supportsDefer : Bool) (splitFlatten : Query → List Query)
    (queries : List Query) : List Query × Bool :=
  if supportsDefer = false then
    if queries.any (fun q => q.hasDeferredDescendant) then (queries, true)
    else ((queries.map splitFlatten).flatten, false)
  else ((queries.map splitFlatten).flatten, false)

/-- The behaviour claim C8 describes for `splitAndFlattenQueries`: only a
query that itself contains a deferred sub-tree bypasses splitting and is
sent as-is; every other query is still passed through the splitting
collaborator, and the results are flattened into one ordered sequence. -/
def splitAndFlattenPerClaim (supportsDefer : Bool) (splitFlatten : Query → List Query)
    (queries : List Query) : List Query × Bool :=
  if supportsDefer = false ∧ queries.any (fun q => q.hasDeferredDescendant) then
    ((queries.map (fun q =>
        if q.hasDeferredDescendant then [q] else splitFlatten q)).flatten, true)
  else ((queries.map splitFlatten).flatten, false)

/-- First handle registered for a query id in an id-keyed registry. -/
def findHandle : List (Nat × Nat) → Nat → Option Nat
  | [], _ => none
  | (q, h) :: rest, qid => if q = qid then some h else findHandle rest qid

/-- Modelled from the spec: the Pending-Fetch Registry
(`RelayPendingQueryTracker`, §4.1 of the spec — the module itself is not
part of this source tree).  `inflight` maps query ids to outstanding
fetch handles, `issued` logs every network/cache operation started, and
`nextHandle` numbers fresh handles. -/
structure Registry where
  inflight : List (Nat × Nat)
  nextHandle : Nat
  issued : List (Nat × Nat)
deriving DecidableEq

/-- Modelled from the spec: `add(query, ...)` — if a pending fetch for an
equivalent query identity is already outstanding, return the same
instance; otherwise construct a new one, begin its underlying fetch, and
return it.  No error is raised by `add` itself. -/
def Registry.add (r : Registry) (qid : Nat) : Nat × Registry :=
  match findHandle r.inflight qid with
  | some h => (h, r)
  | none =>
    (r.nextHandle,
     ⟨(qid, r.nextHandle) :: r.inflight, r.nextHandle + 1,
      r.issued ++ [(qid, r.nextHandle)]⟩)

/-- Modelled from the spec: the completion listener registered by `add`
removes the entry from the registry when the fetch settles. -/
def Registry.settle (r : Registry) (qid : Nat) : Registry :=
  ⟨r.inflight.filter (fun e => e.1 != qid), r.nextHandle, r.issued⟩

/-- One operation on the shared registry, issued by any concurrent
invocation. -/
inductive RegOp
  | add (qid : Nat)
  | settle (qid : Nat)
deriving DecidableEq

/-- Runs a sequence of registry operations (the single-threaded event
loop serialises them). -/
def runRegOps : Registry → List RegOp → Registry
  | r, [] => r
  | r, RegOp.add qid :: ops => runRegOps (r.add qid).2 ops
  | r, RegOp.settle qid :: ops => runRegOps (r.settle qid) ops

/-- Number of network/cache operations issued for one query identity. -/
def countIssued (l : List (Nat × Nat)) (qid : Nat) : Nat :=
  (l.filter (fun e => e.1 == qid)).length

/-- A ready state in which `setReadyState` no longer merges updates:
aborted, done, or errored. -/
def terminalRS (rs : ReadyState) : Prop :=
  rs.aborted = true ∨ rs.done = true ∨ rs.error.isSome = true

/-- A ready state in which `setReadyState` still merges updates. -/
def liveRS (rs : ReadyState) : Prop :=
  rs.aborted = false ∧ rs.done = false ∧ rs.error = none

/-- Boolean form of `liveRS`. -/
def liveB (rs : ReadyState) : Bool :=
  !rs.aborted && !rs.done && rs.error.isNone

/-- `ready` and `done` do not regress between `a` and `b`. -/
def monoRS (a b : ReadyState) : Prop :=
  (a.ready = true → b.ready = true) ∧ (a.done = true → b.done = true)

/-- Inductive invariant of reachable states: before the scheduler body
has run nothing has been emitted or started, and the delivery log is a
monotone sequence dominated by the current ready state. -/
def StInv (st : RunnerState) : Prop :=
  (st.registered = false →
    st.readyState.done = false ∧ st.readyState.error = none ∧
    st.readyState.ready = false ∧ st.unsettled = [] ∧ st.diskCheckPending = false) ∧
  List.Pairwise monoRS st.delivered ∧
  (∀ d ∈ st.delivered, monoRS d st.readyState)

/-- Force-index bookkeeping along one invocation: `generateForceIndex`
is called exactly once, at registration, and only in REFETCH mode. -/
def GenInv (mode : FetchMode) (st : RunnerState) : Prop :=
  (st.registered = false → st.genCalls = 0 ∧ st.forceIndex = none) ∧
  (st.registered = true →
    (mode = FetchMode.refetch → st.genCalls = 1 ∧ st.forceIndex = some 0) ∧
    (mode ≠ FetchMode.refetch → st.genCalls = 0 ∧ st.forceIndex = none))

/-- A burst of synchronous `setReadyState` calls within one turn, run to
completion (`none` when one of them throws). -/
def runBurst : RunnerState → List ReadyStateUpdate → Option RunnerState
  | st, [] => some st
  | st, p :: ps =>
      match setReadyState st p with
      | some st1 => runBurst st1 ps
      | none => none

/-- Every call of the burst finds the state live, so each one actually
merges its update. -/
def burstLive : RunnerState → List ReadyStateUpdate → Bool
  | _, [] => true
  | st, p :: ps =>
      liveB st.readyState &&
        (match setReadyState st p with
         | some st1 => burstLive st1 ps
         | none => false)

theorem setReadyState_of_aborted (st : RunnerState) (p : ReadyStateUpdate)
    (h : st.readyState.aborted = true) : setReadyState st p = some st := by
  simp [setReadyState, h]

theorem setReadyState_of_term (st : RunnerState) (p : ReadyStateUpdate)
    (h1 : st.readyState.aborted = false)
    (h2 : st.readyState.done = true ∨ st.readyState.error.isSome = true) :
    setReadyState st p = if p.aborted = some true then some st else none := by
  unfold setReadyState
  rw [if_neg (by simp [h1]), if_pos h2]

theorem setReadyState_of_live (st : RunnerState) (p : ReadyStateUpdate)
    (h : liveRS st.readyState) :
    setReadyState st p =
      some (if st.scheduled = true then
          { st with readyState := applyUpdate st.readyState p }
        else
          { st with
            readyState := applyUpdate st.readyState p
            scheduled := true
            enqueued := st.enqueued + 1 }) := by
  obtain ⟨h1, h2, h3⟩ := h
  unfold setReadyState
  rw [if_neg (by simp [h1]), if_neg (by simp [h2, h3])]
  by_cases hs : st.scheduled = true
  · rw [if_pos hs, if_pos hs]
  · rw [if_neg hs, if_neg hs]

/-- `setReadyState` only touches the ready state, the scheduled flag and
the delivery counter. -/
theorem setReadyState_frame (st : RunnerState) (p : ReadyStateUpdate)
    (st2 : RunnerState) (h : setReadyState st p = some st2) :
    st2.delivered = st.delivered ∧ st2.remaining = st.remaining ∧
    st2.remainingRequired = st.remainingRequired ∧ st2.unsettled = st.unsettled ∧
    st2.registered = st.registered ∧ st2.diskCheckPending = st.diskCheckPending ∧
    st2.genCalls = st.genCalls ∧ st2.forceIndex = st.forceIndex ∧
    st2.invariantFailures = st.invariantFailures := by
  unfold setReadyState at h
  split at h
  · cases h; exact ⟨rfl, rfl, rfl, rfl, rfl, rfl, rfl, rfl, rfl⟩
  · split at h
    · split at h
      · cases h; exact ⟨rfl, rfl, rfl, rfl, rfl, rfl, rfl, rfl, rfl⟩
      · cases h
    · split at h
      · cases h; exact ⟨rfl, rfl, rfl, rfl, rfl, rfl, rfl, rfl, rfl⟩
      · cases h; exact ⟨rfl, rfl, rfl, rfl, rfl, rfl, rfl, rfl, rfl⟩

/-- The fields a turn cannot change while the state is terminal:
`orCrash ∘ setReadyState` is then the identity up to the failure
counter. -/
theorem orCrash_set_frozen (st : RunnerState) (p : ReadyStateUpdate)
    (h : terminalRS st.readyState) :
    (orCrash st (setReadyState st p)).readyState = st.readyState ∧
    (orCrash st (setReadyState st p)).scheduled = st.scheduled ∧
    (orCrash st (setReadyState st p)).enqueued = st.enqueued ∧
    (orCrash st (setReadyState st p)).delivered = st.delivered ∧
    (orCrash st (setReadyState st p)).remaining = st.remaining ∧
    (orCrash st (setReadyState st p)).remainingRequired = st.remainingRequired ∧
    (orCrash st (setReadyState st p)).unsettled = st.unsettled ∧
    (orCrash st (setReadyState st p)).registered = st.registered ∧
    (orCrash st (setReadyState st p)).diskCheckPending = st.diskCheckPending ∧
    (orCrash st (setReadyState st p)).genCalls = st.genCalls ∧
    (orCrash st (setReadyState st p)).forceIndex = st.forceIndex := by
  by_cases ha : st.readyState.aborted = true
  · rw [setReadyState_of_aborted st p ha]
    exact ⟨rfl, rfl, rfl, rfl, rfl, rfl, rfl, rfl, rfl, rfl, rfl⟩
  · have h2 : st.readyState.done = true ∨ st.readyState.error.isSome = true := by
      rcases h with h | h | h
      · exact absurd h ha
      · exact Or.inl h
      · exact Or.inr h
    rw [setReadyState_of_term st p (by simpa using ha) h2]
    by_cases hp : p.aborted = some true
    · rw [if_pos hp]
      exact ⟨rfl, rfl, rfl, rfl, rfl, rfl, rfl, rfl, rfl, rfl, rfl⟩
    · rw [if_neg hp]
      exact ⟨rfl, rfl, rfl, rfl, rfl, rfl, rfl, rfl, rfl, rfl, rfl⟩

theorem registerEmit_frozen (st : RunnerState) (h : terminalRS st.readyState) :
    (registerEmit st).readyState = st.readyState ∧
    (registerEmit st).scheduled = st.scheduled ∧
    (registerEmit st).enqueued = st.enqueued ∧
    (registerEmit st).delivered = st.delivered := by
  unfold registerEmit
  split
  · have o := orCrash_set_frozen st ⟨none, some true, none, some true, none⟩ h
    exact ⟨o.1, o.2.1, o.2.2.1, o.2.2.2.1⟩
  · split
    · have o := orCrash_set_frozen st ⟨none, none, none, some true, none⟩ h
      exact ⟨o.1, o.2.1, o.2.2.1, o.2.2.2.1⟩
    · have o := orCrash_set_frozen st ⟨none, none, none, some false, none⟩ h
      exact ⟨o.1, o.2.1, o.2.2.1, o.2.2.2.1⟩

theorem registerStep_frozen (mode : FetchMode) (qs : List Query) (st : RunnerState)
    (h : terminalRS st.readyState) :
    (registerStep mode qs st).readyState = st.readyState ∧
    (registerStep mode qs st).scheduled = st.scheduled ∧
    (registerStep mode qs st).enqueued = st.enqueued ∧
    (registerStep mode qs st).delivered = st.delivered :=
  registerEmit_frozen _ h

theorem diskCheckEmit_frozen (ids : List Nat) (st : RunnerState)
    (h : terminalRS st.readyState) :
    (diskCheckEmit ids st).readyState = st.readyState ∧
    (diskCheckEmit ids st).scheduled = st.scheduled ∧
    (diskCheckEmit ids st).enqueued = st.enqueued ∧
    (diskCheckEmit ids st).delivered = st.delivered := by
  unfold diskCheckEmit
  split
  · split
    · have o := orCrash_set_frozen st ⟨none, none, none, some true, some true⟩ h
      exact ⟨o.1, o.2.1, o.2.2.1, o.2.2.2.1⟩
    · exact ⟨rfl, rfl, rfl, rfl⟩
  · exact ⟨rfl, rfl, rfl, rfl⟩

theorem diskCheckStep_frozen (ids : List Nat) (st : RunnerState)
    (h : terminalRS st.readyState) :
    (diskCheckStep ids st).readyState = st.readyState ∧
    (diskCheckStep ids st).scheduled = st.scheduled ∧
    (diskCheckStep ids st).enqueued = st.enqueued ∧
    (diskCheckStep ids st).delivered = st.delivered :=
  diskCheckEmit_frozen ids _ h

theorem onResolvedEmit_frozen (ids : List Nat) (st : RunnerState)
    (h : terminalRS st.readyState) :
    (onResolvedEmit ids st).readyState = st.readyState ∧
    (onResolvedEmit ids st).scheduled = st.scheduled ∧
    (onResolvedEmit ids st).enqueued = st.enqueued ∧
    (onResolvedEmit ids st).delivered = st.delivered := by
  unfold onResolvedEmit
  split
  · exact ⟨rfl, rfl, rfl, rfl⟩
  · split
    · exact ⟨rfl, rfl, rfl, rfl⟩
    · split
      · have o := orCrash_set_frozen st ⟨none, some false, none, some true, some false⟩ h
        exact ⟨o.1, o.2.1, o.2.2.1, o.2.2.2.1⟩
      · have o := orCrash_set_frozen st ⟨none, some true, none, some true, some false⟩ h
        exact ⟨o.1, o.2.1, o.2.2.1, o.2.2.2.1⟩

theorem onResolved_frozen (ids : List Nat) (q : Query) (st : RunnerState)
    (h : terminalRS st.readyState) :
    (onResolved ids q st).readyState = st.readyState ∧
    (onResolved ids q st).scheduled = st.scheduled ∧
    (onResolved ids q st).enqueued = st.enqueued ∧
    (onResolved ids q st).delivered = st.delivered :=
  onResolvedEmit_frozen ids _ h

theorem onRejected_frozen (e : Nat) (q : Query) (st : RunnerState)
    (h : terminalRS st.readyState) :
    (onRejected e q st).readyState = st.readyState ∧
    (onRejected e q st).scheduled = st.scheduled ∧
    (onRejected e q st).enqueued = st.enqueued ∧
    (onRejected e q st).delivered = st.delivered := by
  unfold onRejected
  by_cases ha : st.readyState.aborted = true
  · rw [setReadyState_of_aborted st _ ha]
    exact ⟨rfl, rfl, rfl, rfl⟩
  · have h2 : st.readyState.done = true ∨ st.readyState.error.isSome = true := by
      rcases h with h | h | h
      · exact absurd h ha
      · exact Or.inl h
      · exact Or.inr h
    rw [setReadyState_of_term st _ (by simpa using ha) h2]
    simp

theorem abortStep_frozen (st : RunnerState) (h : terminalRS st.readyState) :
    (abortStep st).readyState = st.readyState ∧
    (abortStep st).scheduled = st.scheduled ∧
    (abortStep st).enqueued = st.enqueued ∧
    (abortStep st).delivered = st.delivered := by
  have o := orCrash_set_frozen st ⟨some true, none, none, none, none⟩ h
  exact ⟨o.1, o.2.1, o.2.2.1, o.2.2.2.1⟩

/-- Once the ready state is terminal (aborted, done, or errored), no turn
changes it or schedules a new delivery; the only observable effect left
is the single already-scheduled flush, which delivers the frozen state. -/
theorem step_frozen (mode : FetchMode) (qs : List Query) (st : RunnerState)
    (e : Event) (st2 : RunnerState) (h : terminalRS st.readyState)
    (hs : step mode qs st e = some st2) :
    st2.readyState = st.readyState ∧ st2.enqueued = st.enqueued ∧
    ((st.scheduled = true ∧ st2.scheduled = false ∧
      st2.delivered = st.delivered ++ [st.readyState]) ∨
     (st2.scheduled = st.scheduled ∧ st2.delivered = st.delivered)) := by
  cases e with
  | register =>
    simp only [step] at hs
    split at hs
    · cases hs
    · cases hs
      have o := registerStep_frozen mode qs st h
      exact ⟨o.1, o.2.2.1, Or.inr ⟨o.2.1, o.2.2.2⟩⟩
  | flush =>
    simp only [step] at hs
    split at hs
    next hsch =>
      cases hs
      exact ⟨rfl, rfl, Or.inl ⟨hsch, rfl, rfl⟩⟩
    next => cases hs
  | diskCheck ids =>
    simp only [step] at hs
    split at hs
    · cases hs
      have o := diskCheckStep_frozen ids st h
      exact ⟨o.1, o.2.2.1, Or.inr ⟨o.2.1, o.2.2.2⟩⟩
    · cases hs
  | resolve qid ids =>
    simp only [step] at hs
    split at hs
    next q _ =>
      cases hs
      have o := onResolved_frozen ids q { st with unsettled := mapDelete st.unsettled q.id } h
      exact ⟨o.1, o.2.2.1, Or.inr ⟨o.2.1, o.2.2.2⟩⟩
    next => cases hs
  | reject qid e =>
    simp only [step] at hs
    split at hs
    next q _ =>
      cases hs
      have o := onRejected_frozen e q { st with unsettled := mapDelete st.unsettled q.id } h
      exact ⟨o.1, o.2.2.1, Or.inr ⟨o.2.1, o.2.2.2⟩⟩
    next => cases hs
  | abortCall =>
    simp only [step] at hs
    cases hs
    have o := abortStep_frozen st h
    exact ⟨o.1, o.2.2.1, Or.inr ⟨o.2.1, o.2.2.2⟩⟩

/-- Trace form of `step_frozen`: from a terminal state, the ready state
never changes again and at most the one pending flush is delivered. -/
theorem runTrace_frozen (mode : FetchMode) (qs : List Query) (st : RunnerState)
    (tr : List Event) (st2 : RunnerState) (h : terminalRS st.readyState)
    (hs : runTrace mode qs st tr = some st2) :
    st2.readyState = st.readyState ∧ st2.enqueued = st.enqueued ∧
    ∃ k, k + (cond st2.scheduled 1 0) = cond st.scheduled 1 0 ∧
      st2.delivered = st.delivered ++ List.replicate k st.readyState := by
  induction tr generalizing st with
  | nil =>
    cases hs
    exact ⟨rfl, rfl, 0, by simp⟩
  | cons e tr ih =>
    unfold runTrace at hs
    cases hst : step mode qs st e with
    | none => rw [hst] at hs; cases hs
    | some st1 =>
      rw [hst] at hs
      have o := step_frozen mode qs st e st1 h hst
      have hterm1 : terminalRS st1.readyState := by rw [o.1]; exact h
      have r := ih st1 hterm1 hs
      refine ⟨by rw [r.1, o.1], by rw [r.2.1, o.2.1], ?_⟩
      obtain ⟨k, hk, hd⟩ := r.2.2
      rcases o.2.2 with ⟨hsch, hsch1, hdel⟩ | ⟨hsch, hdel⟩
      · refine ⟨k + 1, ?_, ?_⟩
        · rw [hsch1] at hk
          rw [hsch]
          simp only [cond_false, cond_true] at hk ⊢
          omega
        · rw [hd, hdel, o.1, List.append_assoc]
          congr 1
      · refine ⟨k, ?_, ?_⟩
        · rw [hk, hsch]
        · rw [hd, hdel, o.1]

theorem monoRS_refl (a : ReadyState) : monoRS a a := ⟨fun h => h, fun h => h⟩

theorem monoRS_trans {a b c : ReadyState} (h1 : monoRS a b) (h2 : monoRS b c) :
    monoRS a c :=
  ⟨fun h => h2.1 (h1.1 h), fun h => h2.2 (h1.2 h)⟩

theorem monoRS_applyUpdate (s : ReadyState) (p : ReadyStateUpdate)
    (hready : p.ready = some false → s.ready = false)
    (hdone : p.done = some false → s.done = false) :
    monoRS s (applyUpdate s p) := by
  constructor
  · intro h
    show p.ready.getD s.ready = true
    cases hr : p.ready with
    | none => simpa using h
    | some b =>
      cases b with
      | false => exact absurd h (by simp [hready hr])
      | true => rfl
  · intro h
    show p.done.getD s.done = true
    cases hd : p.done with
    | none => simpa using h
    | some b =>
      cases b with
      | false => exact absurd h (by simp [hdone hd])
      | true => rfl

theorem monoRS_setReadyState (st : RunnerState) (p : ReadyStateUpdate)
    (st1 : RunnerState) (h : setReadyState st p = some st1)
    (hready : p.ready = some false → st.readyState.ready = false) :
    monoRS st.readyState st1.readyState := by
  unfold setReadyState at h
  split at h
  · cases h; exact monoRS_refl _
  · split at h
    · split at h
      · cases h; exact monoRS_refl _
      · cases h
    · next hterm =>
      push_neg at hterm
      have hdone : st.readyState.done = false := by simpa using hterm.1
      split at h
      · cases h
        exact monoRS_applyUpdate st.readyState p hready (fun _ => hdone)
      · cases h
        exact monoRS_applyUpdate st.readyState p hready (fun _ => hdone)

theorem monoRS_orCrash_set (st : RunnerState) (p : ReadyStateUpdate)
    (hready : p.ready = some false → st.readyState.ready = false) :
    monoRS st.readyState (orCrash st (setReadyState st p)).readyState := by
  cases hres : setReadyState st p with
  | none => exact monoRS_refl _
  | some st1 =>
    show monoRS st.readyState st1.readyState
    exact monoRS_setReadyState st p st1 hres hready

/-- `orCrash ∘ setReadyState` never touches the delivery log, the maps,
or the registration bookkeeping. -/
theorem orCrash_set_frame (st : RunnerState) (p : ReadyStateUpdate) :
    (orCrash st (setReadyState st p)).delivered = st.delivered ∧
    (orCrash st (setReadyState st p)).remaining = st.remaining ∧
    (orCrash st (setReadyState st p)).remainingRequired = st.remainingRequired ∧
    (orCrash st (setReadyState st p)).unsettled = st.unsettled ∧
    (orCrash st (setReadyState st p)).registered = st.registered ∧
    (orCrash st (setReadyState st p)).diskCheckPending = st.diskCheckPending ∧
    (orCrash st (setReadyState st p)).genCalls = st.genCalls ∧
    (orCrash st (setReadyState st p)).forceIndex = st.forceIndex := by
  cases hres : setReadyState st p with
  | none => exact ⟨rfl, rfl, rfl, rfl, rfl, rfl, rfl, rfl⟩
  | some st1 =>
    have f := setReadyState_frame st p st1 hres
    exact ⟨f.1, f.2.1, f.2.2.1, f.2.2.2.1, f.2.2.2.2.1, f.2.2.2.2.2.1,
      f.2.2.2.2.2.2.1, f.2.2.2.2.2.2.2.1⟩

theorem registerEmit_frame (st : RunnerState) :
    (registerEmit st).delivered = st.delivered ∧
    (registerEmit st).remaining = st.remaining ∧
    (registerEmit st).remainingRequired = st.remainingRequired ∧
    (registerEmit st).unsettled = st.unsettled ∧
    (registerEmit st).registered = st.registered ∧
    (registerEmit st).genCalls = st.genCalls ∧
    (registerEmit st).forceIndex = st.forceIndex := by
  unfold registerEmit
  split
  · have f := orCrash_set_frame st ⟨none, some true, none, some true, none⟩
    exact ⟨f.1, f.2.1, f.2.2.1, f.2.2.2.1, f.2.2.2.2.1, f.2.2.2.2.2.2.1, f.2.2.2.2.2.2.2⟩
  · split
    · have f := orCrash_set_frame st ⟨none, none, none, some true, none⟩
      exact ⟨f.1, f.2.1, f.2.2.1, f.2.2.2.1, f.2.2.2.2.1, f.2.2.2.2.2.2.1, f.2.2.2.2.2.2.2⟩
    · have f := orCrash_set_frame st ⟨none, none, none, some false, none⟩
      exact ⟨f.1, f.2.1, f.2.2.1, f.2.2.2.1, f.2.2.2.2.1, f.2.2.2.2.2.2.1, f.2.2.2.2.2.2.2⟩

theorem monoRS_registerEmit (st : RunnerState)
    (hready : st.readyState.ready = false) :
    monoRS st.readyState (registerEmit st).readyState := by
  unfold registerEmit
  split
  · exact monoRS_orCrash_set st _ (fun h => by cases h)
  · split
    · exact monoRS_orCrash_set st _ (fun h => by cases h)
    · exact monoRS_orCrash_set st _ (fun _ => hready)

theorem diskCheckEmit_frame (ids : List Nat) (st : RunnerState) :
    (diskCheckEmit ids st).delivered = st.delivered ∧
    (diskCheckEmit ids st).remaining = st.remaining ∧
    (diskCheckEmit ids st).remainingRequired = st.remainingRequired ∧
    (diskCheckEmit ids st).unsettled = st.unsettled ∧
    (diskCheckEmit ids st).registered = st.registered ∧
    (diskCheckEmit ids st).diskCheckPending = st.diskCheckPending ∧
    (diskCheckEmit ids st).genCalls = st.genCalls ∧
    (diskCheckEmit ids st).forceIndex = st.forceIndex := by
  unfold diskCheckEmit
  split
  · split
    · exact orCrash_set_frame st ⟨none, none, none, some true, some true⟩
    · exact ⟨rfl, rfl, rfl, rfl, rfl, rfl, rfl, rfl⟩
  · exact ⟨rfl, rfl, rfl, rfl, rfl, rfl, rfl, rfl⟩

theorem monoRS_diskCheckEmit (ids : List Nat) (st : RunnerState) :
    monoRS st.readyState (diskCheckEmit ids st).readyState := by
  unfold diskCheckEmit
  split
  · split
    · exact monoRS_orCrash_set st _ (fun h => by cases h)
    · exact monoRS_refl _
  · exact monoRS_refl _

theorem onResolvedEmit_frame (ids : List Nat) (st : RunnerState) :
    (onResolvedEmit ids st).delivered = st.delivered ∧
    (onResolvedEmit ids st).remaining = st.remaining ∧
    (onResolvedEmit ids st).remainingRequired = st.remainingRequired ∧
    (onResolvedEmit ids st).unsettled = st.unsettled ∧
    (onResolvedEmit ids st).registered = st.registered ∧
    (onResolvedEmit ids st).diskCheckPending = st.diskCheckPending ∧
    (onResolvedEmit ids st).genCalls = st.genCalls ∧
    (onResolvedEmit ids st).forceIndex = st.forceIndex := by
  unfold onResolvedEmit
  split
  · exact ⟨rfl, rfl, rfl, rfl, rfl, rfl, rfl, rfl⟩
  · split
    · exact ⟨rfl, rfl, rfl, rfl, rfl, rfl, rfl, rfl⟩
    · split
      · exact orCrash_set_frame st ⟨none, some false, none, some true, some false⟩
      · exact orCrash_set_frame st ⟨none, some true, none, some true, some false⟩

theorem monoRS_onResolvedEmit (ids : List Nat) (st : RunnerState) :
    monoRS st.readyState (onResolvedEmit ids st).readyState := by
  unfold onResolvedEmit
  split
  · exact monoRS_refl _
  · split
    · exact monoRS_refl _
    · split
      · exact monoRS_orCrash_set st _ (fun h => by cases h)
      · exact monoRS_orCrash_set st _ (fun h => by cases h)

theorem onRejected_frame (e : Nat) (q : Query) (st : RunnerState) :
    (onRejected e q st).delivered = st.delivered ∧
    (onRejected e q st).unsettled = st.unsettled ∧
    (onRejected e q st).registered = st.registered ∧
    (onRejected e q st).diskCheckPending = st.diskCheckPending ∧
    (onRejected e q st).genCalls = st.genCalls ∧
    (onRejected e q st).forceIndex = st.forceIndex := by
  unfold onRejected
  cases hres : setReadyState st ⟨none, none, some e, none, none⟩ with
  | none => exact ⟨rfl, rfl, rfl, rfl, rfl, rfl⟩
  | some st1 =>
    have f := setReadyState_frame st _ st1 hres
    exact ⟨f.1, f.2.2.2.1, f.2.2.2.2.1, f.2.2.2.2.2.1, f.2.2.2.2.2.2.1,
      f.2.2.2.2.2.2.2.1⟩

theorem monoRS_onRejected (e : Nat) (q : Query) (st : RunnerState) :
    monoRS st.readyState (onRejected e q st).readyState := by
  unfold onRejected
  cases hres : setReadyState st ⟨none, none, some e, none, none⟩ with
  | none => exact monoRS_refl _
  | some st1 =>
    show monoRS st.readyState st1.readyState
    exact monoRS_setReadyState st _ st1 hres (fun h => by cases h)

theorem abortStep_frame (st : RunnerState) :
    (abortStep st).delivered = st.delivered ∧
    (abortStep st).remaining = st.remaining ∧
    (abortStep st).remainingRequired = st.remainingRequired ∧
    (abortStep st).unsettled = st.unsettled ∧
    (abortStep st).registered = st.registered ∧
    (abortStep st).diskCheckPending = st.diskCheckPending ∧
    (abortStep st).genCalls = st.genCalls ∧
    (abortStep st).forceIndex = st.forceIndex :=
  orCrash_set_frame st ⟨some true, none, none, none, none⟩

theorem monoRS_abortStep (st : RunnerState) :
    monoRS st.readyState (abortStep st).readyState :=
  monoRS_orCrash_set st _ (fun h => by cases h)

theorem monoRS_onResolved (ids : List Nat) (q : Query) (st : RunnerState) :
    monoRS st.readyState (onResolved ids q st).readyState := by
  unfold onResolved
  exact monoRS_onResolvedEmit ids
    { st with
      remaining := mapDelete st.remaining q.id
      remainingRequired :=
        if q.isDeferred then st.remainingRequired
        else mapDelete st.remainingRequired q.id }

theorem monoRS_registerStep (mode : FetchMode) (qs : List Query) (st : RunnerState)
    (hready : st.readyState.ready = false) :
    monoRS st.readyState (registerStep mode qs st).readyState := by
  unfold registerStep
  exact monoRS_registerEmit
    { st with
      registered := true
      genCalls := if mode = FetchMode.refetch then st.genCalls + 1 else st.genCalls
      forceIndex := if mode = FetchMode.refetch then some st.genCalls else none
      remaining := qs.foldl mapInsert st.remaining
      remainingRequired :=
        qs.foldl (fun m q => if q.isDeferred then m else mapInsert m q) st.remainingRequired
      unsettled := qs.foldl mapInsert st.unsettled } hready

theorem monoRS_diskCheckStep (ids : List Nat) (st : RunnerState) :
    monoRS st.readyState (diskCheckStep ids st).readyState := by
  unfold diskCheckStep
  exact monoRS_diskCheckEmit ids { st with diskCheckPending := false }

/-- `abort` never changes the `done`, `error` or `ready` fields. -/
theorem abortStep_fields (st : RunnerState) :
    (abortStep st).readyState.done = st.readyState.done ∧
    (abortStep st).readyState.error = st.readyState.error ∧
    (abortStep st).readyState.ready = st.readyState.ready := by
  unfold abortStep
  by_cases ha : st.readyState.aborted = true
  · rw [setReadyState_of_aborted st _ ha]; exact ⟨rfl, rfl, rfl⟩
  · by_cases hd : st.readyState.done = true ∨ st.readyState.error.isSome = true
    · rw [setReadyState_of_term st _ (by simpa using ha) hd]
      simp [orCrash]
    · push_neg at hd
      have hlive : liveRS st.readyState := by
        refine ⟨by simpa using ha, by simpa using hd.1, ?_⟩
        cases he : st.readyState.error with
        | none => rfl
        | some e => exact absurd (by simp [he]) hd.2
      rw [setReadyState_of_live st _ hlive]
      split <;> exact ⟨rfl, rfl, rfl⟩

theorem stInv_init : StInv initRunnerState := by
  refine ⟨fun _ => ⟨rfl, rfl, rfl, rfl, rfl⟩, List.Pairwise.nil, ?_⟩
  intro d hd
  exact absurd hd (List.not_mem_nil d)

/-- Each turn moves the ready state monotonically. -/
theorem step_mono (mode : FetchMode) (qs : List Query) (st : RunnerState)
    (e : Event) (st2 : RunnerState) (hinv : StInv st)
    (hs : step mode qs st e = some st2) :
    monoRS st.readyState st2.readyState := by
  cases e with
  | register =>
    simp only [step] at hs
    split at hs
    · cases hs
    · next hreg =>
      cases hs
      have hready : st.readyState.ready = false :=
        (hinv.1 (by simpa using hreg)).2.2.1
      exact monoRS_registerStep mode qs st hready
  | flush =>
    simp only [step] at hs
    split at hs
    · cases hs; exact monoRS_refl _
    · cases hs
  | diskCheck ids =>
    simp only [step] at hs
    split at hs
    · cases hs; exact monoRS_diskCheckStep ids st
    · cases hs
  | resolve qid ids =>
    simp only [step] at hs
    split at hs
    next q _ =>
      cases hs
      exact monoRS_onResolved ids q { st with unsettled := mapDelete st.unsettled q.id }
    next => cases hs
  | reject qid e =>
    simp only [step] at hs
    split at hs
    next q _ =>
      cases hs
      exact monoRS_onRejected e q { st with unsettled := mapDelete st.unsettled q.id }
    next => cases hs
  | abortCall =>
    simp only [step] at hs
    cases hs
    exact monoRS_abortStep st

theorem onResolved_frame (ids : List Nat) (q : Query) (st : RunnerState) :
    (onResolved ids q st).delivered = st.delivered ∧
    (onResolved ids q st).unsettled = st.unsettled ∧
    (onResolved ids q st).registered = st.registered ∧
    (onResolved ids q st).diskCheckPending = st.diskCheckPending ∧
    (onResolved ids q st).genCalls = st.genCalls ∧
    (onResolved ids q st).forceIndex = st.forceIndex := by
  unfold onResolved
  have fr := onResolvedEmit_frame ids
    { st with
      remaining := mapDelete st.remaining q.id
      remainingRequired :=
        if q.isDeferred then st.remainingRequired
        else mapDelete st.remainingRequired q.id }
  exact ⟨fr.1, fr.2.2.2.1, fr.2.2.2.2.1, fr.2.2.2.2.2.1, fr.2.2.2.2.2.2.1,
    fr.2.2.2.2.2.2.2⟩

theorem registerStep_frame (mode : FetchMode) (qs : List Query) (st : RunnerState) :
    (registerStep mode qs st).delivered = st.delivered ∧
    (registerStep mode qs st).registered = true := by
  unfold registerStep
  have fr := registerEmit_frame
    { st with
      registered := true
      genCalls := if mode = FetchMode.refetch then st.genCalls + 1 else st.genCalls
      forceIndex := if mode = FetchMode.refetch then some st.genCalls else none
      remaining := qs.foldl mapInsert st.remaining
      remainingRequired :=
        qs.foldl (fun m q => if q.isDeferred then m else mapInsert m q) st.remainingRequired
      unsettled := qs.foldl mapInsert st.unsettled }
  exact ⟨fr.1, fr.2.2.2.2.1⟩

theorem diskCheckStep_frame (ids : List Nat) (st : RunnerState) :
    (diskCheckStep ids st).delivered = st.delivered ∧
    (diskCheckStep ids st).registered = st.registered := by
  unfold diskCheckStep
  have fr := diskCheckEmit_frame ids { st with diskCheckPending := false }
  exact ⟨fr.1, fr.2.2.2.2.1⟩

/-- Carries the invariant across a turn that leaves the delivery log
unchanged and moves the ready state monotonically. -/
theorem stInv_carry (st st2 : RunnerState) (hinv : StInv st)
    (hdel : st2.delivered = st.delivered)
    (hmono : monoRS st.readyState st2.readyState)
    (hG1 : st2.registered = false →
      st2.readyState.done = false ∧ st2.readyState.error = none ∧
      st2.readyState.ready = false ∧ st2.unsettled = [] ∧
      st2.diskCheckPending = false) :
    StInv st2 := by
  refine ⟨hG1, ?_, ?_⟩
  · rw [hdel]; exact hinv.2.1
  · rw [hdel]
    intro d hd
    exact monoRS_trans (hinv.2.2 d hd) hmono

/-- Each turn preserves the invariant. -/
theorem step_inv (mode : FetchMode) (qs : List Query) (st : RunnerState)
    (e : Event) (st2 : RunnerState) (hinv : StInv st)
    (hs : step mode qs st e = some st2) : StInv st2 := by
  have hmono := step_mono mode qs st e st2 hinv hs
  cases e with
  | register =>
    simp only [step] at hs
    split at hs
    · cases hs
    · cases hs
      refine stInv_carry st _ hinv (registerStep_frame mode qs st).1 hmono ?_
      intro hreg
      rw [(registerStep_frame mode qs st).2] at hreg
      cases hreg
  | flush =>
    simp only [step] at hs
    split at hs
    · cases hs
      refine ⟨fun hreg => hinv.1 hreg, ?_, ?_⟩
      · show List.Pairwise monoRS (st.delivered ++ [st.readyState])
        rw [List.pairwise_append]
        refine ⟨hinv.2.1, List.pairwise_singleton _ _, ?_⟩
        intro a ha b hb
        rw [List.mem_singleton] at hb
        subst hb
        exact hinv.2.2 a ha
      · intro d hd
        have hd2 : d ∈ st.delivered ++ [st.readyState] := hd
        show monoRS d st.readyState
        rw [List.mem_append] at hd2
        rcases hd2 with hd2 | hd2
        · exact hinv.2.2 d hd2
        · rw [List.mem_singleton] at hd2
          subst hd2
          exact monoRS_refl _
    · cases hs
  | diskCheck ids =>
    simp only [step] at hs
    split at hs
    · next hpend =>
      cases hs
      refine stInv_carry st _ hinv (diskCheckStep_frame ids st).1 hmono ?_
      intro hreg
      rw [(diskCheckStep_frame ids st).2] at hreg
      have g := hinv.1 hreg
      rw [g.2.2.2.2] at hpend
      cases hpend
    · cases hs
  | resolve qid ids =>
    simp only [step] at hs
    split at hs
    next q hq =>
      cases hs
      have fr := onResolved_frame ids q { st with unsettled := mapDelete st.unsettled q.id }
      refine stInv_carry st _ hinv fr.1 hmono ?_
      intro hreg
      rw [fr.2.2.1] at hreg
      have g := hinv.1 hreg
      rw [g.2.2.2.1] at hq
      cases hq
    next => cases hs
  | reject qid e =>
    simp only [step] at hs
    split at hs
    next q hq =>
      cases hs
      have fr := onRejected_frame e q { st with unsettled := mapDelete st.unsettled q.id }
      refine stInv_carry st _ hinv fr.1 hmono ?_
      intro hreg
      rw [fr.2.2.1] at hreg
      have g := hinv.1 hreg
      rw [g.2.2.2.1] at hq
      cases hq
    next => cases hs
  | abortCall =>
    simp only [step] at hs
    cases hs
    have fr := abortStep_frame st
    have fl := abortStep_fields st
    refine stInv_carry st _ hinv fr.1 hmono ?_
    intro hreg
    rw [fr.2.2.2.2.1] at hreg
    have g := hinv.1 hreg
    exact ⟨by rw [fl.1]; exact g.1, by rw [fl.2.1]; exact g.2.1,
      by rw [fl.2.2]; exact g.2.2.1, by rw [fr.2.2.2.1]; exact g.2.2.2.1,
      by rw [fr.2.2.2.2.2.1]; exact g.2.2.2.2⟩

/-- Trace form: the invariant holds in every reachable state. -/
theorem runTrace_inv (mode : FetchMode) (qs : List Query) (st : RunnerState)
    (tr : List Event) (st2 : RunnerState) (hinv : StInv st)
    (hs : runTrace mode qs st tr = some st2) : StInv st2 := by
  induction tr generalizing st with
  | nil => cases hs; exact hinv
  | cons e tr ih =>
    unfold runTrace at hs
    cases hst : step mode qs st e with
    | none => rw [hst] at hs; cases hs
    | some st1 =>
      rw [hst] at hs
      exact ih st1 (step_inv mode qs st e st1 hinv hst) hs

theorem liveB_iff (rs : ReadyState) : liveB rs = true ↔ liveRS rs := by
  unfold liveB liveRS
  rw [Bool.and_eq_true, Bool.and_eq_true]
  simp [Option.isNone_iff_eq_none, and_assoc]

theorem setReadyState_live_scheduled (st : RunnerState) (p : ReadyStateUpdate)
    (hlive : liveRS st.readyState) (hsch : st.scheduled = true) :
    setReadyState st p = some { st with readyState := applyUpdate st.readyState p } := by
  rw [setReadyState_of_live st p hlive, if_pos hsch]

theorem setReadyState_live_unscheduled (st : RunnerState) (p : ReadyStateUpdate)
    (hlive : liveRS st.readyState) (hsch : st.scheduled = false) :
    setReadyState st p =
      some { st with
        readyState := applyUpdate st.readyState p
        scheduled := true
        enqueued := st.enqueued + 1 } := by
  rw [setReadyState_of_live st p hlive, if_neg (by rw [hsch]; exact Bool.false_ne_true)]

/-- While a delivery is already scheduled, a live burst merges all the
updates and changes nothing else: no second delivery is scheduled. -/
theorem runBurst_scheduled (ps : List ReadyStateUpdate) : ∀ st : RunnerState,
    st.scheduled = true → burstLive st ps = true →
    runBurst st ps = some { st with readyState := ps.foldl applyUpdate st.readyState } := by
  induction ps with
  | nil => intro st _ _; rfl
  | cons p ps ih =>
    intro st hsch hb
    unfold burstLive at hb
    rw [Bool.and_eq_true] at hb
    have hlive := (liveB_iff st.readyState).1 hb.1
    have hset := setReadyState_live_scheduled st p hlive hsch
    have hb2 : burstLive { st with readyState := applyUpdate st.readyState p } ps = true := by
      have hb2 := hb.2
      rw [hset] at hb2
      exact hb2
    unfold runBurst
    rw [hset]
    exact ih _ hsch hb2

theorem mapInsert_ne_nil (m : List Query) (q : Query) : mapInsert m q ≠ [] := by
  unfold mapInsert
  split
  · next hany =>
    intro h
    rw [List.map_eq_nil_iff] at h
    rw [h] at hany
    cases hany
  · intro h
    rcases List.append_eq_nil.1 h with ⟨_, h2⟩
    cases h2

theorem foldl_mapInsert_nil_iff (qs : List Query) : ∀ m : List Query,
    qs.foldl mapInsert m = [] ↔ (qs = [] ∧ m = []) := by
  induction qs with
  | nil => intro m; simp
  | cons q qs ih =>
    intro m
    rw [List.foldl_cons, ih]
    constructor
    · rintro ⟨_, h2⟩
      exact absurd h2 (mapInsert_ne_nil m q)
    · rintro ⟨h, _⟩
      cases h

theorem foldl_requiredInsert_nil_iff (qs : List Query) : ∀ m : List Query,
    qs.foldl (fun m q => if q.isDeferred then m else mapInsert m q) m = [] ↔
      (m = [] ∧ qs.all (fun q => q.isDeferred) = true) := by
  induction qs with
  | nil => intro m; simp
  | cons q qs ih =>
    intro m
    rw [List.foldl_cons, List.all_cons]
    by_cases hq : q.isDeferred = true
    · rw [if_pos hq, ih, hq]
      simp
    · rw [if_neg hq, ih]
      rw [Bool.not_eq_true] at hq
      rw [hq]
      simp [mapInsert_ne_nil m q]

/-- Every entry of the required map built at registration is one of the
registered non-deferred queries. -/
theorem foldl_requiredInsert_mem (qs : List Query) : ∀ m : List Query,
    ∀ x ∈ qs.foldl (fun m q => if q.isDeferred then m else mapInsert m q) m,
      x ∈ m ∨ x ∈ qs := by
  induction qs with
  | nil =>
    intro m x hx
    exact Or.inl hx
  | cons q qs ih =>
    intro m x hx
    rw [List.foldl_cons] at hx
    by_cases hq : q.isDeferred = true
    · rw [if_pos hq] at hx
      rcases ih m x hx with h | h
      · exact Or.inl h
      · exact Or.inr (List.mem_cons_of_mem q h)
    · rw [if_neg hq] at hx
      rcases ih (mapInsert m q) x hx with h | h
      · unfold mapInsert at h
        split at h
        · rw [List.mem_map] at h
          obtain ⟨y, hy, hyx⟩ := h
          by_cases hid : y.id == q.id
          · rw [if_pos hid] at hyx
            exact Or.inr (hyx ▸ List.mem_cons_self q qs)
          · rw [if_neg hid] at hyx
            exact Or.inl (hyx ▸ hy)
        · rw [List.mem_append, List.mem_singleton] at h
          rcases h with h | h
          · exact Or.inl h
          · exact Or.inr (h ▸ List.mem_cons_self q qs)
      · exact Or.inr (List.mem_cons_of_mem q h)

/-- C1: over any invocation (`run` or `forceFetch`, i.e. any fetch mode
and any diffed/split query list) and any interleaving of asynchronous
turns, the delivered callback states never let `ready` or `done` go from
true back to false, and once `aborted` has become true the ready state is
frozen: every field keeps its value, and the only callback that can still
fire is the single already-scheduled delivery, which reports the frozen
aborted state — nothing further is delivered even when the underlying
fetches later resolve or reject. -/
theorem c1_monotonic_and_abort_suppression
    (mode : FetchMode) (qs : List Query) (tr1 : List Event) (st1 : RunnerState)
    (h1 : runTrace mode qs initRunnerState tr1 = some st1) :
    List.Pairwise monoRS st1.delivered ∧
    (st1.readyState.aborted = true →
      ∀ tr2 st2, runTrace mode qs st1 tr2 = some st2 →
        st2.readyState = st1.readyState ∧
        st2.delivered.length + (cond st2.scheduled 1 0) =
          st1.delivered.length + (cond st1.scheduled 1 0) ∧
        st2.delivered.length ≤ st1.delivered.length + 1 ∧
        st2.delivered = st1.delivered ++
          List.replicate (st2.delivered.length - st1.delivered.length)
            st1.readyState) := by
  constructor
  · exact (runTrace_inv mode qs initRunnerState tr1 st1 stInv_init h1).2.1
  · intro hab tr2 st2 h2
    have fr := runTrace_frozen mode qs st1 tr2 st2 (Or.inl hab) h2
    obtain ⟨hrs, _, k, hk, hd⟩ := fr
    have hlen : st2.delivered.length = st1.delivered.length + k := by
      rw [hd]
      simp
    have hcond1 : cond st1.scheduled 1 0 ≤ 1 := by
      cases st1.scheduled <;> simp
    refine ⟨hrs, ?_, ?_, ?_⟩
    · omega
    · omega
    · have hk2 : st2.delivered.length - st1.delivered.length = k := by omega
      rw [hk2]
      exact hd

theorem c1_monotonic_and_abort_suppression_witness :
    List.Pairwise monoRS [(⟨false, false, none, false, false⟩ : ReadyState)] ∧
    ([⟨false, false, none, false, false⟩, ⟨true, false, none, false, false⟩] :
        List ReadyState) =
      [⟨false, false, none, false, false⟩] ++
        List.replicate 1 (⟨true, false, none, false, false⟩ : ReadyState) := by
  have h := c1_monotonic_and_abort_suppression FetchMode.client [⟨1, false, false⟩]
    [Event.register, Event.flush, Event.abortCall]
    ⟨⟨true, false, none, false, false⟩, true, 2,
      [⟨false, false, none, false, false⟩], [⟨1, false, false⟩],
      [⟨1, false, false⟩], [⟨1, false, false⟩], true, true, 0, none, 0⟩
    (by decide)
  have h2 := h.2 (by decide) [Event.resolve 1 [], Event.flush]
    ⟨⟨true, false, none, false, false⟩, false, 2,
      [⟨false, false, none, false, false⟩, ⟨true, false, none, false, false⟩],
      [], [], [], true, true, 0, none, 0⟩
    (by decide)
  exact ⟨h.1, h2.2.2.2⟩

/-- C2: a burst of synchronous `setReadyState` calls within one turn,
starting with no delivery scheduled and with every update accepted (the
state is live at each call), schedules exactly one delivery: the
`resolveImmediate` counter `enqueued` rises by exactly one even though
every call merged, nothing is delivered during the burst itself
(`delivered` is unchanged until the next asynchronous tick), and the one
flush that then runs hands the callback the fully merged state — the left
fold of every update in the burst — never an intermediate state. -/
theorem c2_coalesced_single_delivery (st : RunnerState)
    (ps : List ReadyStateUpdate) (hsch : st.scheduled = false)
    (hb : burstLive st ps = true) (hne : ps ≠ []) :
    runBurst st ps =
      some { st with
        readyState := ps.foldl applyUpdate st.readyState
        scheduled := true
        enqueued := st.enqueued + 1 } ∧
    (runBurst st ps).map (fun s => s.delivered) = some st.delivered ∧
    (runBurst st ps).map (fun s => (flushStep s).delivered) =
      some (st.delivered ++ [ps.foldl applyUpdate st.readyState]) ∧
    (runBurst st ps).map (fun s => (flushStep s).scheduled) = some false := by
  cases ps with
  | nil => exact absurd rfl hne
  | cons p ps =>
    unfold burstLive at hb
    rw [Bool.and_eq_true] at hb
    have hlive := (liveB_iff st.readyState).1 hb.1
    have hset := setReadyState_live_unscheduled st p hlive hsch
    have hb2 : burstLive
        { st with
          readyState := applyUpdate st.readyState p
          scheduled := true
          enqueued := st.enqueued + 1 } ps = true := by
      have x := hb.2
      rw [hset] at x
      exact x
    have hrun : runBurst st (p :: ps) =
        some { st with
          readyState := (p :: ps).foldl applyUpdate st.readyState
          scheduled := true
          enqueued := st.enqueued + 1 } := by
      unfold runBurst
      rw [hset]
      exact runBurst_scheduled ps _ rfl hb2
    refine ⟨hrun, ?_, ?_, ?_⟩
    · rw [hrun]; rfl
    · rw [hrun]; rfl
    · rw [hrun]; rfl

theorem c2_coalesced_single_delivery_witness :
    runBurst initRunnerState
        [⟨none, none, none, some false, none⟩,
         ⟨none, none, none, some true, some true⟩] =
      some ⟨⟨false, false, none, true, true⟩, true, 1, [], [], [], [],
        false, false, 0, none, 0⟩ ∧
    (runBurst initRunnerState
        [⟨none, none, none, some false, none⟩,
         ⟨none, none, none, some true, some true⟩]).map
      (fun s => (flushStep s).delivered) =
      some [⟨false, false, none, true, true⟩] := by
  have h := c2_coalesced_single_delivery initRunnerState
    [⟨none, none, none, some false, none⟩, ⟨none, none, none, some true, some true⟩]
    rfl (by decide) (by decide)
  exact ⟨h.1, h.2.2.1⟩

theorem hasItems_eq_false_iff (m : List Query) : hasItems m = false ↔ m = [] := by
  unfold hasItems
  simp [List.isEmpty_iff]

theorem hasItems_eq_true_iff (m : List Query) : hasItems m = true ↔ m ≠ [] := by
  unfold hasItems
  simp [List.isEmpty_iff]

theorem applyUpdate_error (s : ReadyState) (e : Nat) :
    applyUpdate s ⟨none, none, some e, none, none⟩ = { s with error := some e } := rfl

theorem applyUpdate_abort (s : ReadyState) :
    applyUpdate s ⟨some true, none, none, none, none⟩ = { s with aborted := true } := rfl

theorem applyUpdate_resolve_nonfinal (s : ReadyState) (h : liveRS s) :
    applyUpdate s ⟨none, some false, none, some true, some false⟩ =
      ⟨false, false, none, true, false⟩ := by
  simp [applyUpdate, h.1, h.2.2]

theorem applyUpdate_resolve_final (s : ReadyState) (h : liveRS s) :
    applyUpdate s ⟨none, some true, none, some true, some false⟩ =
      ⟨false, true, none, true, false⟩ := by
  simp [applyUpdate, h.1, h.2.2]

theorem registerEmit_of_empty (st : RunnerState) (hlive : liveRS st.readyState)
    (hsch : st.scheduled = false) (hrem : st.remaining = []) :
    registerEmit st =
      { st with
        readyState := applyUpdate st.readyState ⟨none, some true, none, some true, none⟩
        scheduled := true
        enqueued := st.enqueued + 1 } := by
  unfold registerEmit
  have hc : hasItems st.remaining = false := by rw [hrem]; rfl
  rw [if_pos hc, setReadyState_live_unscheduled st _ hlive hsch]
  rfl

theorem registerEmit_of_deferred_only (st : RunnerState) (hlive : liveRS st.readyState)
    (hsch : st.scheduled = false) (hrem : st.remaining ≠ [])
    (hreq : st.remainingRequired = []) :
    registerEmit st =
      { st with
        readyState := applyUpdate st.readyState ⟨none, none, none, some true, none⟩
        scheduled := true
        enqueued := st.enqueued + 1 } := by
  unfold registerEmit
  have hc : ¬(hasItems st.remaining = false) := by
    rw [hasItems_eq_false_iff]
    exact hrem
  have hc2 : hasItems st.remainingRequired = false := by rw [hreq]; rfl
  rw [if_neg hc, if_pos hc2, setReadyState_live_unscheduled st _ hlive hsch]
  rfl

theorem registerEmit_of_required (st : RunnerState) (hlive : liveRS st.readyState)
    (hsch : st.scheduled = false) (hrem : st.remaining ≠ [])
    (hreq : st.remainingRequired ≠ []) :
    registerEmit st =
      { st with
        readyState := applyUpdate st.readyState ⟨none, none, none, some false, none⟩
        scheduled := true
        enqueued := st.enqueued + 1
        diskCheckPending := true } := by
  unfold registerEmit
  have hc : ¬(hasItems st.remaining = false) := by
    rw [hasItems_eq_false_iff]
    exact hrem
  have hc2 : ¬(hasItems st.remainingRequired = false) := by
    rw [hasItems_eq_false_iff]
    exact hreq
  rw [if_neg hc, if_neg hc2, setReadyState_live_unscheduled st _ hlive hsch]
  rfl

theorem diskCheckEmit_of_no_required (ids : List Nat) (st : RunnerState)
    (hreq : st.remainingRequired = []) : diskCheckEmit ids st = st := by
  unfold diskCheckEmit
  have hc : ¬(hasItems st.remainingRequired = true) := by
    rw [hasItems_eq_true_iff]
    intro h
    exact h hreq
  rw [if_neg hc]

theorem diskCheckEmit_of_miss (ids : List Nat) (st : RunnerState)
    (hall : st.remainingRequired.all (fun q => ids.contains q.id) = false) :
    diskCheckEmit ids st = st := by
  unfold diskCheckEmit
  split
  · rw [if_neg]
    rw [hall]
    exact Bool.false_ne_true
  · rfl

theorem diskCheckEmit_of_hit_scheduled (ids : List Nat) (st : RunnerState)
    (hlive : liveRS st.readyState) (hsch : st.scheduled = true)
    (hreq : st.remainingRequired ≠ [])
    (hall : st.remainingRequired.all (fun q => ids.contains q.id) = true) :
    diskCheckEmit ids st =
      { st with
        readyState := applyUpdate st.readyState ⟨none, none, none, some true, some true⟩ } := by
  unfold diskCheckEmit
  rw [if_pos ((hasItems_eq_true_iff _).2 hreq), if_pos hall,
    setReadyState_live_scheduled st _ hlive hsch]
  rfl

theorem onResolvedEmit_of_required (ids : List Nat) (st : RunnerState)
    (hreq : st.remainingRequired ≠ []) : onResolvedEmit ids st = st := by
  unfold onResolvedEmit
  rw [if_pos ((hasItems_eq_true_iff _).2 hreq)]

theorem onResolvedEmit_of_resolvable (ids : List Nat) (st : RunnerState)
    (hreq : st.remainingRequired = [])
    (hany : st.remaining.any (fun r => ids.contains r.id) = true) :
    onResolvedEmit ids st = st := by
  unfold onResolvedEmit
  have hc : ¬(hasItems st.remainingRequired = true) := by
    rw [hasItems_eq_true_iff]
    intro h
    exact h hreq
  rw [if_neg hc, if_pos hany]

theorem onResolvedEmit_of_nonfinal (ids : List Nat) (st : RunnerState)
    (hlive : liveRS st.readyState) (hreq : st.remainingRequired = [])
    (hany : st.remaining.any (fun r => ids.contains r.id) = false)
    (hrem : st.remaining ≠ []) :
    onResolvedEmit ids st =
      if st.scheduled = true then
        { st with
          readyState := applyUpdate st.readyState ⟨none, some false, none, some true, some false⟩ }
      else
        { st with
          readyState := applyUpdate st.readyState ⟨none, some false, none, some true, some false⟩
          scheduled := true
          enqueued := st.enqueued + 1 } := by
  unfold onResolvedEmit
  have hc : ¬(hasItems st.remainingRequired = true) := by
    rw [hasItems_eq_true_iff]
    intro h
    exact h hreq
  rw [if_neg hc, if_neg (by rw [hany]; exact Bool.false_ne_true),
    if_pos ((hasItems_eq_true_iff _).2 hrem),
    setReadyState_of_live st _ hlive]
  split <;> rfl

theorem onResolvedEmit_of_final (ids : List Nat) (st : RunnerState)
    (hlive : liveRS st.readyState) (hreq : st.remainingRequired = [])
    (hrem : st.remaining = []) :
    onResolvedEmit ids st =
      if st.scheduled = true then
        { st with
          readyState := applyUpdate st.readyState ⟨none, some true, none, some true, some false⟩ }
      else
        { st with
          readyState := applyUpdate st.readyState ⟨none, some true, none, some true, some false⟩
          scheduled := true
          enqueued := st.enqueued + 1 } := by
  unfold onResolvedEmit
  have hc : ¬(hasItems st.remainingRequired = true) := by
    rw [hasItems_eq_true_iff]
    intro h
    exact h hreq
  have hany : st.remaining.any (fun r => ids.contains r.id) = false := by
    rw [hrem]; rfl
  have hc2 : ¬(hasItems st.remaining = true) := by
    rw [hasItems_eq_true_iff]
    intro h
    exact h hrem
  rw [if_neg hc, if_neg (by rw [hany]; exact Bool.false_ne_true), if_neg hc2,
    setReadyState_of_live st _ hlive]
  split <;> rfl

theorem registerStep_init_eq (mode : FetchMode) (qs : List Query) :
    registerStep mode qs initRunnerState = registerEmit (registerInit mode qs) := rfl

theorem registerInit_remaining_ne_nil (mode : FetchMode) (qs : List Query)
    (hne : qs ≠ []) : (registerInit mode qs).remaining ≠ [] := by
  show qs.foldl mapInsert [] ≠ []
  intro h
  exact hne ((foldl_mapInsert_nil_iff qs []).1 h).1

theorem registerInit_required_eq_nil_iff (mode : FetchMode) (qs : List Query) :
    (registerInit mode qs).remainingRequired = [] ↔
      qs.all (fun q => q.isDeferred) = true := by
  show qs.foldl (fun m q => if q.isDeferred then m else mapInsert m q) [] = [] ↔ _
  rw [foldl_requiredInsert_nil_iff qs []]
  simp

/-- C3: the first readiness state after the synchronous registration
phase is a function of the diffed/split query list: an empty list gives
`done+ready` immediately — and then the whole invocation delivers exactly
one asynchronous callback, carrying
`{aborted: false, done: true, error: null, ready: true, stale: false}`;
a non-empty all-deferred list gives `ready` immediately; any other list
gives not-ready and schedules the optimistic disk-cache check, which
flips the state to `ready+stale` exactly when every remaining required
fetch is resolvable from the disk-backed cache. -/
theorem c3_registration_fast_paths (mode : FetchMode) (qs : List Query)
    (st1 : RunnerState)
    (h1 : runTrace mode qs initRunnerState [Event.register] = some st1) :
    (qs = [] →
      st1.readyState = ⟨false, true, none, true, false⟩ ∧
      st1.delivered = [] ∧
      st1.scheduled = true ∧
      (runTrace mode qs st1 [Event.flush]).map (fun s => s.delivered) =
        some [⟨false, true, none, true, false⟩] ∧
      (∀ tr2 st2, runTrace mode qs st1 tr2 = some st2 →
        st2.delivered.length ≤ 1 ∧
        ∀ d ∈ st2.delivered, d = ⟨false, true, none, true, false⟩)) ∧
    (qs ≠ [] → qs.all (fun q => q.isDeferred) = true →
      st1.readyState = ⟨false, false, none, true, false⟩) ∧
    (qs.all (fun q => q.isDeferred) = false →
      st1.readyState = ⟨false, false, none, false, false⟩ ∧
      st1.diskCheckPending = true ∧
      (∀ ids st2, runTrace mode qs st1 [Event.diskCheck ids] = some st2 →
        (st1.remainingRequired.all (fun q => ids.contains q.id) = true →
          st2.readyState = ⟨false, false, none, true, true⟩) ∧
        (st1.remainingRequired.all (fun q => ids.contains q.id) = false →
          st2.readyState = ⟨false, false, none, false, false⟩))) := by
  have hst1 : registerStep mode qs initRunnerState = st1 := by
    have hr : runTrace mode qs initRunnerState [Event.register] =
        some (registerStep mode qs initRunnerState) := rfl
    rw [hr] at h1
    exact Option.some.inj h1
  subst hst1
  refine ⟨?_, ?_, ?_⟩
  · rintro rfl
    refine ⟨rfl, rfl, rfl, rfl, ?_⟩
    intro tr2 st2 h2
    obtain ⟨hrs2, _, k, hk, hd⟩ := runTrace_frozen mode [] _ tr2 st2
      (Or.inr (Or.inl rfl)) h2
    have hc1 : cond (registerStep mode [] initRunnerState).scheduled 1 0 = 1 := rfl
    rw [hc1] at hk
    have hdel0 : (registerStep mode [] initRunnerState).delivered =
        ([] : List ReadyState) := rfl
    rw [hdel0, List.nil_append] at hd
    constructor
    · rw [hd]
      have hk1 : k ≤ 1 := by omega
      simpa using hk1
    · intro d hd2
      rw [hd] at hd2
      rw [List.eq_of_mem_replicate hd2]
      rfl
  · intro hne hall
    rw [registerStep_init_eq,
      registerEmit_of_deferred_only (registerInit mode qs) ⟨rfl, rfl, rfl⟩ rfl
        (registerInit_remaining_ne_nil mode qs hne)
        ((registerInit_required_eq_nil_iff mode qs).2 hall)]
    rfl
  · intro hall
    have hne : qs ≠ [] := by
      intro h
      rw [h] at hall
      cases hall
    have hreq : (registerInit mode qs).remainingRequired ≠ [] := by
      intro h
      rw [(registerInit_required_eq_nil_iff mode qs).1 h] at hall
      cases hall
    have hemit : registerEmit (registerInit mode qs) = registerRequiredState mode qs := by
      rw [registerEmit_of_required (registerInit mode qs) ⟨rfl, rfl, rfl⟩ rfl
        (registerInit_remaining_ne_nil mode qs hne) hreq]
      rfl
    rw [registerStep_init_eq, hemit]
    refine ⟨rfl, rfl, ?_⟩
    intro ids st2 h2
    have hstep : runTrace mode qs (registerRequiredState mode qs) [Event.diskCheck ids] =
        some (diskCheckEmit ids (registerRequiredDC mode qs)) := rfl
    rw [hstep] at h2
    have hst2 := Option.some.inj h2
    have hreq2 : (registerRequiredDC mode qs).remainingRequired ≠ [] := hreq
    constructor
    · intro hall2
      have hall3 : ((registerRequiredDC mode qs).remainingRequired.all
          (fun q => ids.contains q.id)) = true := hall2
      rw [← hst2, diskCheckEmit_of_hit_scheduled ids (registerRequiredDC mode qs)
        ⟨rfl, rfl, rfl⟩ rfl hreq2 hall3]
      rfl
    · intro hall2
      have hall3 : ((registerRequiredDC mode qs).remainingRequired.all
          (fun q => ids.contains q.id)) = false := hall2
      rw [← hst2, diskCheckEmit_of_miss ids (registerRequiredDC mode qs) hall3]
      rfl

theorem c3_registration_fast_paths_witness :
    (⟨⟨false, true, none, true, false⟩, true, 1, [], [], [], [], true, false, 0,
        none, 0⟩ : RunnerState).readyState = ⟨false, true, none, true, false⟩ ∧
    (runTrace FetchMode.client []
        ⟨⟨false, true, none, true, false⟩, true, 1, [], [], [], [], true, false, 0,
          none, 0⟩ [Event.flush]).map (fun s => s.delivered) =
      some [⟨false, true, none, true, false⟩] ∧
    (⟨⟨false, true, none, true, false⟩, false, 1, [⟨false, true, none, true, false⟩],
        [], [], [], true, false, 0, none, 0⟩ : RunnerState).delivered.length ≤ 1 := by
  have h := c3_registration_fast_paths FetchMode.client []
    ⟨⟨false, true, none, true, false⟩, true, 1, [], [], [], [], true, false, 0,
      none, 0⟩ (by decide)
  have hb := h.1 rfl
  refine ⟨hb.1, hb.2.2.2.1, ?_⟩
  exact (hb.2.2.2.2 [Event.abortCall, Event.flush]
    ⟨⟨false, true, none, true, false⟩, false, 1, [⟨false, true, none, true, false⟩],
      [], [], [], true, false, 0, none, 0⟩ (by decide)).1

/-- C4: when a pending fetch resolves while the invocation is still live,
its query id is deleted from the remaining map, and from the required map
exactly when the query is not deferred; then nothing is emitted if
required fetches remain, nothing is emitted if some still-remaining fetch
reports itself resolvable, and otherwise the merged state becomes
`{ready: true, done: false, stale: false}` when the remaining map is
still non-empty and `{ready: true, done: true, stale: false}` when it is
empty. -/
theorem c4_on_resolved (st : RunnerState) (q : Query) (ids : List Nat)
    (ha : st.readyState.aborted = false) (hdn : st.readyState.done = false)
    (he : st.readyState.error = none) :
    (onResolved ids q st).remaining = mapDelete st.remaining q.id ∧
    (onResolved ids q st).remainingRequired =
      (if q.isDeferred then st.remainingRequired
       else mapDelete st.remainingRequired q.id) ∧
    ((if q.isDeferred then st.remainingRequired
       else mapDelete st.remainingRequired q.id) ≠ [] →
      (onResolved ids q st).readyState = st.readyState ∧
      (onResolved ids q st).enqueued = st.enqueued) ∧
    ((if q.isDeferred then st.remainingRequired
       else mapDelete st.remainingRequired q.id) = [] →
      (mapDelete st.remaining q.id).any (fun r => ids.contains r.id) = true →
      (onResolved ids q st).readyState = st.readyState ∧
      (onResolved ids q st).enqueued = st.enqueued) ∧
    ((if q.isDeferred then st.remainingRequired
       else mapDelete st.remainingRequired q.id) = [] →
      (mapDelete st.remaining q.id).any (fun r => ids.contains r.id) = false →
      mapDelete st.remaining q.id ≠ [] →
      (onResolved ids q st).readyState = ⟨false, false, none, true, false⟩) ∧
    ((if q.isDeferred then st.remainingRequired
       else mapDelete st.remainingRequired q.id) = [] →
      (mapDelete st.remaining q.id).any (fun r => ids.contains r.id) = false →
      mapDelete st.remaining q.id = [] →
      (onResolved ids q st).readyState = ⟨false, true, none, true, false⟩) := by
  have hlive : liveRS (onResolvedDel q st).readyState := ⟨ha, hdn, he⟩
  have hres : onResolved ids q st = onResolvedEmit ids (onResolvedDel q st) := rfl
  refine ⟨?_, ?_, ?_, ?_, ?_, ?_⟩
  · rw [hres, (onResolvedEmit_frame ids (onResolvedDel q st)).2.1]
    rfl
  · rw [hres, (onResolvedEmit_frame ids (onResolvedDel q st)).2.2.1]
    rfl
  · intro hreq
    rw [hres, onResolvedEmit_of_required ids (onResolvedDel q st) hreq]
    exact ⟨rfl, rfl⟩
  · intro hreq hany
    rw [hres, onResolvedEmit_of_resolvable ids (onResolvedDel q st) hreq hany]
    exact ⟨rfl, rfl⟩
  · intro hreq hany hrem
    rw [hres, onResolvedEmit_of_nonfinal ids (onResolvedDel q st) hlive hreq hany hrem]
    split
    · exact applyUpdate_resolve_nonfinal st.readyState ⟨ha, hdn, he⟩
    · exact applyUpdate_resolve_nonfinal st.readyState ⟨ha, hdn, he⟩
  · intro hreq hany hrem
    rw [hres, onResolvedEmit_of_final ids (onResolvedDel q st) hlive hreq hrem]
    split
    · exact applyUpdate_resolve_final st.readyState ⟨ha, hdn, he⟩
    · exact applyUpdate_resolve_final st.readyState ⟨ha, hdn, he⟩

theorem c4_on_resolved_witness :
    (onResolved [] ⟨1, false, false⟩
        ⟨⟨false, false, none, false, false⟩, false, 1, [], [⟨1, false, false⟩],
          [⟨1, false, false⟩], [], true, true, 0, none, 0⟩).remaining = [] ∧
    (onResolved [] ⟨1, false, false⟩
        ⟨⟨false, false, none, false, false⟩, false, 1, [], [⟨1, false, false⟩],
          [⟨1, false, false⟩], [], true, true, 0, none, 0⟩).readyState =
      ⟨false, true, none, true, false⟩ := by
  have h := c4_on_resolved
    ⟨⟨false, false, none, false, false⟩, false, 1, [], [⟨1, false, false⟩],
      [⟨1, false, false⟩], [], true, true, 0, none, 0⟩
    ⟨1, false, false⟩ [] rfl rfl rfl
  exact ⟨h.1, h.2.2.2.2.2 (by decide) (by decide) (by decide)⟩

/-- C5: when a pending fetch rejects while the invocation is still live,
the state merges only the error (every other field kept), a delivery is
scheduled, and the rejected query id is removed from the remaining map
(from the required map exactly when the query is not deferred) after the
emission; the pending flush hands the callback the state carrying the
error, and the error is terminal: along any further interleaving the
ready state never changes again — even when other fetches later resolve —
and no callback beyond that single flush is ever invoked. -/
theorem c5_on_rejected_terminal (st : RunnerState) (q : Query) (e : Nat)
    (ha : st.readyState.aborted = false) (hdn : st.readyState.done = false)
    (he : st.readyState.error = none) :
    (onRejected e q st).readyState = { st.readyState with error := some e } ∧
    (onRejected e q st).scheduled = true ∧
    (onRejected e q st).delivered = st.delivered ∧
    (onRejected e q st).remaining = mapDelete st.remaining q.id ∧
    (onRejected e q st).remainingRequired =
      (if q.isDeferred then st.remainingRequired
       else mapDelete st.remainingRequired q.id) ∧
    (∀ mode qs,
      (runTrace mode qs (onRejected e q st) [Event.flush]).map
        (fun s => s.delivered) =
      some (st.delivered ++ [{ st.readyState with error := some e }])) ∧
    (∀ mode qs tr2 st2, runTrace mode qs (onRejected e q st) tr2 = some st2 →
      st2.readyState = { st.readyState with error := some e } ∧
      st2.delivered.length ≤ st.delivered.length + 1 ∧
      st2.delivered = st.delivered ++
        List.replicate (st2.delivered.length - st.delivered.length)
          { st.readyState with error := some e }) := by
  have hlive : liveRS st.readyState := ⟨ha, hdn, he⟩
  have key : (onRejected e q st).readyState = { st.readyState with error := some e } ∧
      (onRejected e q st).scheduled = true ∧
      (onRejected e q st).delivered = st.delivered ∧
      (onRejected e q st).remaining = mapDelete st.remaining q.id ∧
      (onRejected e q st).remainingRequired =
        (if q.isDeferred then st.remainingRequired
         else mapDelete st.remainingRequired q.id) := by
    unfold onRejected
    rw [setReadyState_of_live st _ hlive]
    by_cases hsc : st.scheduled = true
    · rw [if_pos hsc]
      exact ⟨rfl, hsc, rfl, rfl, rfl⟩
    · rw [if_neg hsc]
      exact ⟨rfl, rfl, rfl, rfl, rfl⟩
  refine ⟨key.1, key.2.1, key.2.2.1, key.2.2.2.1, key.2.2.2.2, ?_, ?_⟩
  · intro mode qs
    have hstep : step mode qs (onRejected e q st) Event.flush =
        some (flushStep (onRejected e q st)) := by
      simp only [step, key.2.1, if_true]
    have hrun : runTrace mode qs (onRejected e q st) [Event.flush] =
        some (flushStep (onRejected e q st)) := by
      unfold runTrace
      rw [hstep]
      rfl
    rw [hrun]
    show some ((onRejected e q st).delivered ++ [(onRejected e q st).readyState]) = _
    rw [key.2.2.1, key.1]
  · intro mode qs tr2 st2 h2
    have hterm : terminalRS (onRejected e q st).readyState := by
      rw [key.1]
      exact Or.inr (Or.inr rfl)
    obtain ⟨hrs2, _, k, hk, hd⟩ := runTrace_frozen mode qs _ tr2 st2 hterm h2
    rw [key.2.2.1, key.1] at hd
    rw [key.1] at hrs2
    rw [key.2.1] at hk
    simp only [cond_true] at hk
    have hlen : st2.delivered.length = st.delivered.length + k := by
      rw [hd]
      simp
    refine ⟨hrs2, by omega, ?_⟩
    have hk2 : st2.delivered.length - st.delivered.length = k := by omega
    rw [hk2]
    exact hd

theorem c5_on_rejected_terminal_witness :
    (onRejected 7 ⟨1, false, false⟩
        ⟨⟨false, false, none, false, false⟩, true, 1,
          [⟨false, false, none, false, false⟩], [⟨1, false, false⟩, ⟨2, false, false⟩],
          [⟨1, false, false⟩, ⟨2, false, false⟩], [⟨2, false, false⟩], true, true, 0,
          none, 0⟩).readyState = ⟨false, false, some 7, false, false⟩ ∧
    (onRejected 7 ⟨1, false, false⟩
        ⟨⟨false, false, none, false, false⟩, true, 1,
          [⟨false, false, none, false, false⟩], [⟨1, false, false⟩, ⟨2, false, false⟩],
          [⟨1, false, false⟩, ⟨2, false, false⟩], [⟨2, false, false⟩], true, true, 0,
          none, 0⟩).remaining = [⟨2, false, false⟩] := by
  have h := c5_on_rejected_terminal
    ⟨⟨false, false, none, false, false⟩, true, 1,
      [⟨false, false, none, false, false⟩], [⟨1, false, false⟩, ⟨2, false, false⟩],
      [⟨1, false, false⟩, ⟨2, false, false⟩], [⟨2, false, false⟩], true, true, 0,
      none, 0⟩ ⟨1, false, false⟩ 7 rfl rfl rfl
  refine ⟨h.1, ?_⟩
  rw [h.2.2.2.1]
  decide

/-- C6 counterexample: the claim says `abort()` is unconditional — even
after `done` or `error` it sets `aborted` and delivers `{aborted: true}`.
On the invocation of an empty query set (which becomes `done`
immediately), calling `abort()` leaves `aborted` false, schedules no new
delivery (`enqueued` stays at the registration's 1), and the only
callback ever delivered carries the done state, not `{aborted: true}`:
`setReadyState` returns before merging once `done`/`error` is set, even
for an aborting update. -/
theorem c6_abort_unconditional_counterexample :
    (runTrace FetchMode.client [] initRunnerState
        [Event.register, Event.abortCall]).map
      (fun st => (st.readyState.aborted, st.scheduled, st.enqueued)) =
      some (false, true, 1) ∧
    (runTrace FetchMode.client [] initRunnerState
        [Event.register, Event.abortCall, Event.flush]).map
      (fun st => st.delivered) =
      some [⟨false, true, none, true, false⟩] := by decide

/-- C6 amended: `abort()` synchronously sets `aborted` and schedules an
`{aborted: true}` delivery only while the invocation is live (not
aborted, not done, not errored); once `done` or `error` is set — or after
a previous abort — `abort()` is a complete no-op: no field changes and no
notification is scheduled. -/
theorem c6_abort_amended (st : RunnerState) :
    (st.readyState.aborted = false → st.readyState.done = false →
      st.readyState.error = none →
      (abortStep st).readyState = { st.readyState with aborted := true } ∧
      (abortStep st).scheduled = true ∧
      (flushStep (abortStep st)).delivered =
        st.delivered ++ [{ st.readyState with aborted := true }]) ∧
    ((st.readyState.done = true ∨ st.readyState.error.isSome = true) →
      abortStep st = st) ∧
    (st.readyState.aborted = true → abortStep st = st) := by
  refine ⟨?_, ?_, ?_⟩
  · intro ha hdn he
    unfold abortStep
    rw [setReadyState_of_live st _ ⟨ha, hdn, he⟩]
    by_cases hsc : st.scheduled = true
    · rw [if_pos hsc]
      exact ⟨rfl, hsc, rfl⟩
    · rw [if_neg hsc]
      exact ⟨rfl, rfl, rfl⟩
  · intro hdn
    unfold abortStep
    by_cases ha : st.readyState.aborted = true
    · rw [setReadyState_of_aborted st _ ha]
      rfl
    · rw [setReadyState_of_term st _ (by simpa using ha) hdn, if_pos rfl]
      rfl
  · intro ha
    unfold abortStep
    rw [setReadyState_of_aborted st _ ha]
    rfl

theorem c6_abort_amended_witness :
    (abortStep initRunnerState).readyState = ⟨true, false, none, false, false⟩ ∧
    abortStep
        ⟨⟨false, true, none, true, false⟩, true, 1, [], [], [], [], true, false, 0,
          none, 0⟩ =
      ⟨⟨false, true, none, true, false⟩, true, 1, [], [], [], [], true, false, 0,
        none, 0⟩ := by
  have h1 := c6_abort_amended initRunnerState
  have h2 := c6_abort_amended
    ⟨⟨false, true, none, true, false⟩, true, 1, [], [], [], [], true, false, 0,
      none, 0⟩
  exact ⟨(h1.1 rfl rfl rfl).1, h2.2.1 (Or.inl rfl)⟩

theorem registerStep_gen (mode : FetchMode) (qs : List Query) (st : RunnerState) :
    (registerStep mode qs st).genCalls =
      (if mode = FetchMode.refetch then st.genCalls + 1 else st.genCalls) ∧
    (registerStep mode qs st).forceIndex =
      (if mode = FetchMode.refetch then some st.genCalls else none) := by
  unfold registerStep
  have fr := registerEmit_frame
    { st with
      registered := true
      genCalls := if mode = FetchMode.refetch then st.genCalls + 1 else st.genCalls
      forceIndex := if mode = FetchMode.refetch then some st.genCalls else none
      remaining := qs.foldl mapInsert st.remaining
      remainingRequired :=
        qs.foldl (fun m q => if q.isDeferred then m else mapInsert m q) st.remainingRequired
      unsettled := qs.foldl mapInsert st.unsettled }
  exact ⟨fr.2.2.2.2.2.1, fr.2.2.2.2.2.2⟩

theorem diskCheckStep_gen (ids : List Nat) (st : RunnerState) :
    (diskCheckStep ids st).genCalls = st.genCalls ∧
    (diskCheckStep ids st).forceIndex = st.forceIndex ∧
    (diskCheckStep ids st).registered = st.registered := by
  unfold diskCheckStep
  have fr := diskCheckEmit_frame ids { st with diskCheckPending := false }
  exact ⟨fr.2.2.2.2.2.2.1, fr.2.2.2.2.2.2.2, fr.2.2.2.2.1⟩

/-- Every turn except registration leaves the force-index bookkeeping
untouched. -/
theorem step_gen_frame (mode : FetchMode) (qs : List Query) (st : RunnerState)
    (e : Event) (st2 : RunnerState) (hs : step mode qs st e = some st2)
    (hne : e ≠ Event.register) :
    st2.genCalls = st.genCalls ∧ st2.forceIndex = st.forceIndex ∧
    st2.registered = st.registered := by
  cases e with
  | register => exact absurd rfl hne
  | flush =>
    simp only [step] at hs
    split at hs
    · cases hs; exact ⟨rfl, rfl, rfl⟩
    · cases hs
  | diskCheck ids =>
    simp only [step] at hs
    split at hs
    · cases hs; exact diskCheckStep_gen ids st
    · cases hs
  | resolve qid ids =>
    simp only [step] at hs
    split at hs
    next q _ =>
      cases hs
      have fr := onResolved_frame ids q { st with unsettled := mapDelete st.unsettled q.id }
      exact ⟨fr.2.2.2.2.1, fr.2.2.2.2.2, fr.2.2.1⟩
    next => cases hs
  | reject qid e =>
    simp only [step] at hs
    split at hs
    next q _ =>
      cases hs
      have fr := onRejected_frame e q { st with unsettled := mapDelete st.unsettled q.id }
      exact ⟨fr.2.2.2.2.1, fr.2.2.2.2.2, fr.2.2.1⟩
    next => cases hs
  | abortCall =>
    simp only [step] at hs
    cases hs
    have fr := abortStep_frame st
    exact ⟨fr.2.2.2.2.2.2.1, fr.2.2.2.2.2.2.2, fr.2.2.2.2.1⟩

theorem step_genInv (mode : FetchMode) (qs : List Query) (st : RunnerState)
    (e : Event) (st2 : RunnerState) (hinv : GenInv mode st)
    (hs : step mode qs st e = some st2) : GenInv mode st2 := by
  cases e with
  | register =>
    simp only [step] at hs
    split at hs
    · cases hs
    · next hreg =>
      cases hs
      have hg := hinv.1 (by simpa using hreg)
      have hgen := registerStep_gen mode qs st
      have hreg2 := (registerStep_frame mode qs st).2
      constructor
      · intro h
        rw [hreg2] at h
        cases h
      · intro _
        constructor
        · intro hm
          rw [hgen.1, hgen.2, if_pos hm, if_pos hm, hg.1]
          exact ⟨rfl, rfl⟩
        · intro hm
          rw [hgen.1, hgen.2, if_neg hm, if_neg hm]
          exact ⟨hg.1, rfl⟩
  | flush =>
    have fr := step_gen_frame mode qs st Event.flush st2 hs (by intro h; cases h)
    rw [GenInv, fr.1, fr.2.1, fr.2.2]
    exact hinv
  | diskCheck ids =>
    have fr := step_gen_frame mode qs st (Event.diskCheck ids) st2 hs (by intro h; cases h)
    rw [GenInv, fr.1, fr.2.1, fr.2.2]
    exact hinv
  | resolve qid ids =>
    have fr := step_gen_frame mode qs st (Event.resolve qid ids) st2 hs (by intro h; cases h)
    rw [GenInv, fr.1, fr.2.1, fr.2.2]
    exact hinv
  | reject qid e =>
    have fr := step_gen_frame mode qs st (Event.reject qid e) st2 hs (by intro h; cases h)
    rw [GenInv, fr.1, fr.2.1, fr.2.2]
    exact hinv
  | abortCall =>
    have fr := step_gen_frame mode qs st Event.abortCall st2 hs (by intro h; cases h)
    rw [GenInv, fr.1, fr.2.1, fr.2.2]
    exact hinv

theorem runTrace_genInv (mode : FetchMode) (qs : List Query) (st : RunnerState)
    (tr : List Event) (st2 : RunnerState) (hinv : GenInv mode st)
    (hs : runTrace mode qs st tr = some st2) : GenInv mode st2 := by
  induction tr generalizing st with
  | nil => cases hs; exact hinv
  | cons e tr ih =>
    unfold runTrace at hs
    cases hst : step mode qs st e with
    | none => rw [hst] at hs; cases hs
    | some st1 =>
      rw [hst] at hs
      exact ih st1 (step_genInv mode qs st e st1 hinv hst) hs

theorem genInv_init (mode : FetchMode) : GenInv mode initRunnerState := by
  constructor
  · intro _
    exact ⟨rfl, rfl⟩
  · intro h
    cases h

theorem registerStep_init_pending (mode : FetchMode) (qs : List Query)
    (hp : (registerStep mode qs initRunnerState).diskCheckPending = true) :
    (registerInit mode qs).remaining ≠ [] ∧
    (registerInit mode qs).remainingRequired ≠ [] ∧
    registerStep mode qs initRunnerState = registerRequiredState mode qs := by
  rw [registerStep_init_eq] at hp ⊢
  by_cases h1 : (registerInit mode qs).remaining = []
  · rw [registerEmit_of_empty _ ⟨rfl, rfl, rfl⟩ rfl h1] at hp
    exact Bool.noConfusion hp
  · by_cases h2 : (registerInit mode qs).remainingRequired = []
    · rw [registerEmit_of_deferred_only _ ⟨rfl, rfl, rfl⟩ rfl h1 h2] at hp
      exact Bool.noConfusion hp
    · refine ⟨h1, h2, ?_⟩
      rw [registerEmit_of_required _ ⟨rfl, rfl, rfl⟩ rfl h1 h2]
      rfl

/-- C7: `forceFetch(querySet, callback)` builds exactly the invocation
that `run(querySet, callback, REFETCH)` builds — every non-null query of
the set passed through unchanged with no diffing — so the two drive
identical `runQueries` state machines; along any REFETCH trace the force
index is generated exactly once, at registration, and is non-null
(`genCalls = 1`, `forceIndex = some 0` once registered, untouched
before), while a CLIENT trace never generates one; and a REFETCH
invocation whose required fetches are all satisfiable from cache still
delivers a `ready: true` (stale) state from the disk-cache check while
every fetch is still outstanding — the network fetch itself is not
skipped. -/
theorem c7_force_fetch_is_run_refetch (diff : Query → List Query)
    (querySet : List (Option Query)) :
    forceFetch querySet = run diff querySet FetchMode.refetch ∧
    (forceFetch querySet).queries = querySet.filterMap (fun oq => oq) ∧
    (∀ qs tr st2,
      runTrace FetchMode.refetch qs initRunnerState tr = some st2 →
      (st2.registered = true → st2.genCalls = 1 ∧ st2.forceIndex = some 0) ∧
      (st2.registered = false → st2.genCalls = 0 ∧ st2.forceIndex = none)) ∧
    (∀ qs tr st2,
      runTrace FetchMode.client qs initRunnerState tr = some st2 →
      st2.genCalls = 0 ∧ st2.forceIndex = none) ∧
    (∀ qs ids st1 st2,
      runTrace FetchMode.refetch qs initRunnerState [Event.register] = some st1 →
      runTrace FetchMode.refetch qs st1 [Event.diskCheck ids] = some st2 →
      st1.remainingRequired.all (fun q => ids.contains q.id) = true →
      st2.readyState.ready = true ∧ st2.readyState.stale = true ∧
      st2.remaining = st1.remaining ∧ st2.remaining ≠ [] ∧
      st2.unsettled = st1.unsettled ∧ st2.unsettled ≠ []) := by
  refine ⟨rfl, rfl, ?_, ?_, ?_⟩
  · intro qs tr st2 h
    have hinv := runTrace_genInv FetchMode.refetch qs initRunnerState tr st2
      (genInv_init FetchMode.refetch) h
    constructor
    · intro hreg
      exact (hinv.2 hreg).1 rfl
    · intro hreg
      exact hinv.1 hreg
  · intro qs tr st2 h
    have hinv := runTrace_genInv FetchMode.client qs initRunnerState tr st2
      (genInv_init FetchMode.client) h
    by_cases hreg : st2.registered = true
    · exact (hinv.2 hreg).2 (by intro hh; cases hh)
    · exact hinv.1 (by simpa using hreg)
  · intro qs ids st1 st2 h1 h2 hall
    have hst1 : registerStep FetchMode.refetch qs initRunnerState = st1 := by
      have hr : runTrace FetchMode.refetch qs initRunnerState [Event.register] =
          some (registerStep FetchMode.refetch qs initRunnerState) := rfl
      rw [hr] at h1
      exact Option.some.inj h1
    subst hst1
    by_cases hp : (registerStep FetchMode.refetch qs initRunnerState).diskCheckPending = true
    case neg =>
      have hpf : (registerStep FetchMode.refetch qs initRunnerState).diskCheckPending = false := by
        cases hx : (registerStep FetchMode.refetch qs initRunnerState).diskCheckPending
        · rfl
        · exact absurd hx hp
      unfold runTrace step at h2
      rw [hpf] at h2
      cases h2
    case pos =>
      obtain ⟨hrem, hreq, heq⟩ := registerStep_init_pending FetchMode.refetch qs hp
      rw [heq] at h2 hall ⊢
      have hstep : runTrace FetchMode.refetch qs
          (registerRequiredState FetchMode.refetch qs) [Event.diskCheck ids] =
          some (diskCheckEmit ids (registerRequiredDC FetchMode.refetch qs)) := rfl
      rw [hstep] at h2
      have hst2 := Option.some.inj h2
      have hreq2 : (registerRequiredDC FetchMode.refetch qs).remainingRequired ≠ [] := hreq
      have hall2 : ((registerRequiredDC FetchMode.refetch qs).remainingRequired.all
          (fun q => ids.contains q.id)) = true := hall
      have hemit := diskCheckEmit_of_hit_scheduled ids
        (registerRequiredDC FetchMode.refetch qs) ⟨rfl, rfl, rfl⟩ rfl hreq2 hall2
      rw [← hst2, hemit]
      have hun : (registerInit FetchMode.refetch qs).unsettled =
          (registerInit FetchMode.refetch qs).remaining := rfl
      refine ⟨?_, ?_, rfl, hrem, rfl, ?_⟩
      · exact congrArg ReadyState.ready
          (applyUpdate_resolve_nonfinal ⟨false, false, none, false, false⟩
            ⟨rfl, rfl, rfl⟩) ▸ rfl
      · rfl
      · show (registerInit FetchMode.refetch qs).unsettled ≠ []
        rw [hun]
        exact hrem

theorem c7_force_fetch_is_run_refetch_witness :
    forceFetch [some ⟨1, false, false⟩, none] =
      run (fun q => [q]) [some ⟨1, false, false⟩, none] FetchMode.refetch ∧
    (⟨⟨false, false, none, false, false⟩, true, 1, [], [⟨1, false, false⟩],
        [⟨1, false, false⟩], [⟨1, false, false⟩], true, true, 1, some 0,
        0⟩ : RunnerState).genCalls = 1 ∧
    (⟨⟨false, false, none, false, false⟩, true, 1, [], [⟨1, false, false⟩],
        [⟨1, false, false⟩], [⟨1, false, false⟩], true, true, 1, some 0,
        0⟩ : RunnerState).forceIndex = some 0 ∧
    (⟨⟨false, false, none, true, true⟩, true, 1, [], [⟨1, false, false⟩],
        [⟨1, false, false⟩], [⟨1, false, false⟩], true, false, 1, some 0,
        0⟩ : RunnerState).readyState.ready = true ∧
    (⟨⟨false, false, none, true, true⟩, true, 1, [], [⟨1, false, false⟩],
        [⟨1, false, false⟩], [⟨1, false, false⟩], true, false, 1, some 0,
        0⟩ : RunnerState).readyState.stale = true ∧
    (⟨⟨false, false, none, true, true⟩, true, 1, [], [⟨1, false, false⟩],
        [⟨1, false, false⟩], [⟨1, false, false⟩], true, false, 1, some 0,
        0⟩ : RunnerState).unsettled ≠ [] := by
  have h := c7_force_fetch_is_run_refetch (fun q => [q]) [some ⟨1, false, false⟩, none]
  have h3 := h.2.2.1 [⟨1, false, false⟩] [Event.register]
    ⟨⟨false, false, none, false, false⟩, true, 1, [], [⟨1, false, false⟩],
      [⟨1, false, false⟩], [⟨1, false, false⟩], true, true, 1, some 0, 0⟩
    (by decide)
  have h5 := h.2.2.2.2 [⟨1, false, false⟩] [1]
    ⟨⟨false, false, none, false, false⟩, true, 1, [], [⟨1, false, false⟩],
      [⟨1, false, false⟩], [⟨1, false, false⟩], true, true, 1, some 0, 0⟩
    ⟨⟨false, false, none, true, true⟩, true, 1, [], [⟨1, false, false⟩],
      [⟨1, false, false⟩], [⟨1, false, false⟩], true, false, 1, some 0, 0⟩
    (by decide) (by decide) (by decide)
  exact ⟨h.1, (h3.1 rfl).1, (h3.1 rfl).2, h5.1, h5.2.1, h5.2.2.2.2.2⟩

/-- C8 counterexample: with a defer-less transport, a query list holding
one query with a deferred sub-tree and one without, and a splitter that
duplicates each query, the code returns the ENTIRE list as-is (with a
warning), whereas the claim predicts that only the deferred-containing
query bypasses splitting while the other is still split — the two
disagree on a concrete input. -/
theorem c8_split_bypass_counterexample :
    splitAndFlattenQueries false (fun q => [q, q])
        [⟨1, false, true⟩, ⟨2, false, false⟩] =
      ([⟨1, false, true⟩, ⟨2, false, false⟩], true) ∧
    splitAndFlattenPerClaim false (fun q => [q, q])
        [⟨1, false, true⟩, ⟨2, false, false⟩] =
      ([⟨1, false, true⟩, ⟨2, false, false⟩, ⟨2, false, false⟩], true) ∧
    splitAndFlattenQueries false (fun q => [q, q])
        [⟨1, false, true⟩, ⟨2, false, false⟩] ≠
      splitAndFlattenPerClaim false (fun q => [q, q])
        [⟨1, false, true⟩, ⟨2, false, false⟩] := by decide

/-- C8 amended: if the transport declares no support for defer and any
input query contains a deferred sub-tree, the entire query list bypasses
the splitting step and is sent as-is — every query unsplit, not just the
offending one — and the non-fatal warning is emitted; in every other
situation (defer supported, or no deferred sub-tree anywhere) each query
is passed through the splitting collaborator and the results are
flattened into one ordered sequence, without warning. -/
theorem c8_split_bypass_amended (supportsDefer : Bool)
    (splitFlatten : Query → List Query) (queries : List Query) :
    (supportsDefer = false →
      queries.any (fun q => q.hasDeferredDescendant) = true →
      splitAndFlattenQueries supportsDefer splitFlatten queries = (queries, true)) ∧
    (supportsDefer = false →
      queries.any (fun q => q.hasDeferredDescendant) = false →
      splitAndFlattenQueries supportsDefer splitFlatten queries =
        ((queries.map splitFlatten).flatten, false)) ∧
    (supportsDefer = true →
      splitAndFlattenQueries supportsDefer splitFlatten queries =
        ((queries.map splitFlatten).flatten, false)) := by
  refine ⟨?_, ?_, ?_⟩
  · intro h1 h2
    subst h1
    simp [splitAndFlattenQueries, h2]
  · intro h1 h2
    subst h1
    simp [splitAndFlattenQueries, h2]
  · intro h1
    subst h1
    simp [splitAndFlattenQueries]

theorem c8_split_bypass_amended_witness :
    splitAndFlattenQueries false (fun q => [q, q])
        [⟨1, false, true⟩, ⟨2, false, false⟩] =
      ([⟨1, false, true⟩, ⟨2, false, false⟩], true) ∧
    splitAndFlattenQueries false (fun q => [q, q]) [⟨2, false, false⟩] =
      ([⟨2, false, false⟩, ⟨2, false, false⟩], false) ∧
    splitAndFlattenQueries true (fun q => [q, q]) [⟨1, false, true⟩] =
      ([⟨1, false, true⟩, ⟨1, false, true⟩], false) := by
  have h1 := c8_split_bypass_amended false (fun q => [q, q])
    [⟨1, false, true⟩, ⟨2, false, false⟩]
  have h2 := c8_split_bypass_amended false (fun q => [q, q]) [⟨2, false, false⟩]
  have h3 := c8_split_bypass_amended true (fun q => [q, q]) [⟨1, false, true⟩]
  exact ⟨h1.1 rfl (by decide), h2.2.1 rfl (by decide), h3.2.2 rfl⟩

theorem findHandle_cons (a b : Nat) (l : List (Nat × Nat)) (qid : Nat) :
    findHandle ((a, b) :: l) qid = if a = qid then some b else findHandle l qid := rfl

theorem findHandle_filter (l : List (Nat × Nat)) (qid qid2 : Nat) (h : qid ≠ qid2) :
    findHandle (l.filter (fun e => e.1 != qid2)) qid = findHandle l qid := by
  induction l with
  | nil => rfl
  | cons p l ih =>
    obtain ⟨a, b⟩ := p
    rw [List.filter_cons]
    by_cases ha : a = qid2
    · rw [if_neg (by simp [ha]), ih, findHandle_cons,
        if_neg (by rw [ha]; exact fun hh => h hh.symm)]
    · rw [if_pos (by simp [ha]), findHandle_cons, findHandle_cons]
      by_cases hq : a = qid
      · rw [if_pos hq, if_pos hq]
      · rw [if_neg hq, if_neg hq, ih]

theorem countIssued_append (l1 l2 : List (Nat × Nat)) (qid : Nat) :
    countIssued (l1 ++ l2) qid = countIssued l1 qid + countIssued l2 qid := by
  simp [countIssued, List.filter_append]

theorem Registry.add_of_found (r : Registry) (qid h : Nat)
    (hf : findHandle r.inflight qid = some h) : r.add qid = (h, r) := by
  unfold Registry.add
  rw [hf]

theorem Registry.add_of_missing (r : Registry) (qid : Nat)
    (hf : findHandle r.inflight qid = none) :
    r.add qid = (r.nextHandle,
      ⟨(qid, r.nextHandle) :: r.inflight, r.nextHandle + 1,
        r.issued ++ [(qid, r.nextHandle)]⟩) := by
  unfold Registry.add
  rw [hf]

theorem Registry.add_finds (r : Registry) (qid : Nat) :
    findHandle (r.add qid).2.inflight qid = some ((r.add qid).1) := by
  cases hf : findHandle r.inflight qid with
  | some h =>
    rw [Registry.add_of_found r qid h hf]
    exact hf
  | none =>
    rw [Registry.add_of_missing r qid hf]
    show findHandle ((qid, r.nextHandle) :: r.inflight) qid = some r.nextHandle
    rw [findHandle_cons, if_pos rfl]

/-- While a query identity stays in flight (no settle for it occurs), any
interleaved registry activity keeps its handle registered and issues no
further network/cache operation for it. -/
theorem runRegOps_preserve (ops : List RegOp) : ∀ (r : Registry) (qid h : Nat),
    findHandle r.inflight qid = some h →
    (∀ op ∈ ops, op ≠ RegOp.settle qid) →
    findHandle (runRegOps r ops).inflight qid = some h ∧
    countIssued (runRegOps r ops).issued qid = countIssued r.issued qid := by
  induction ops with
  | nil =>
    intro r qid h hf _
    exact ⟨hf, rfl⟩
  | cons op ops ih =>
    intro r qid h hf hno
    have hno2 : ∀ op2 ∈ ops, op2 ≠ RegOp.settle qid :=
      fun op2 hm => hno op2 (List.mem_cons_of_mem op hm)
    cases op with
    | add qid2 =>
      have hunfold : runRegOps r (RegOp.add qid2 :: ops) = runRegOps (r.add qid2).2 ops := rfl
      rw [hunfold]
      cases hfq : findHandle r.inflight qid2 with
      | some h2 =>
        rw [Registry.add_of_found r qid2 h2 hfq]
        exact ih r qid h hf hno2
      | none =>
        have hq : qid2 ≠ qid := by
          intro hh
          rw [hh, hf] at hfq
          cases hfq
        rw [Registry.add_of_missing r qid2 hfq]
        have hf2 : findHandle ((qid2, r.nextHandle) :: r.inflight) qid = some h := by
          rw [findHandle_cons, if_neg hq]
          exact hf
        have hrec := ih ⟨(qid2, r.nextHandle) :: r.inflight, r.nextHandle + 1,
          r.issued ++ [(qid2, r.nextHandle)]⟩ qid h hf2 hno2
        refine ⟨hrec.1, ?_⟩
        show countIssued (runRegOps ⟨(qid2, r.nextHandle) :: r.inflight,
          r.nextHandle + 1, r.issued ++ [(qid2, r.nextHandle)]⟩ ops).issued qid =
          countIssued r.issued qid
        rw [hrec.2]
        show countIssued (r.issued ++ [(qid2, r.nextHandle)]) qid = _
        rw [countIssued_append]
        have : countIssued [(qid2, r.nextHandle)] qid = 0 := by
          simp [countIssued, hq]
        rw [this]
        exact Nat.add_zero _
    | settle qid2 =>
      have hne : qid ≠ qid2 := by
        intro hh
        exact (hno (RegOp.settle qid2) (List.mem_cons_self _ _)) (by rw [hh])
      have hf2 : findHandle (r.settle qid2).inflight qid = some h := by
        show findHandle (r.inflight.filter fun e => e.1 != qid2) qid = some h
        rw [findHandle_filter r.inflight qid qid2 hne]
        exact hf
      exact ih (r.settle qid2) qid h hf2 hno2

/-- C9: two `add` calls for the same query identity whose windows overlap
(no settle for that identity happens between them) return the same
pending-fetch handle, the second `add` changes nothing, and — when the
identity was not already in flight at the first `add` — exactly one
network/cache operation is issued for it across the whole window.
Modelled from the spec: the Pending-Fetch Registry itself
(`RelayPendingQueryTracker`) is not part of this source tree. -/
theorem c9_pending_fetch_dedup (r : Registry) (qid : Nat) (ops : List RegOp)
    (hno : ∀ op ∈ ops, op ≠ RegOp.settle qid) :
    ((runRegOps (r.add qid).2 ops).add qid).1 = (r.add qid).1 ∧
    ((runRegOps (r.add qid).2 ops).add qid).2 = runRegOps (r.add qid).2 ops ∧
    (findHandle r.inflight qid = none →
      countIssued (((runRegOps (r.add qid).2 ops).add qid).2).issued qid =
        countIssued r.issued qid + 1) := by
  have hkeep := runRegOps_preserve ops (r.add qid).2 qid (r.add qid).1
    (Registry.add_finds r qid) hno
  have hsecond := Registry.add_of_found (runRegOps (r.add qid).2 ops) qid
    (r.add qid).1 hkeep.1
  refine ⟨?_, ?_, ?_⟩
  · rw [hsecond]
  · rw [hsecond]
  · intro hmiss
    rw [hsecond]
    rw [hkeep.2]
    rw [Registry.add_of_missing r qid hmiss]
    show countIssued (r.issued ++ [(qid, r.nextHandle)]) qid = _
    rw [countIssued_append]
    have : countIssued [(qid, r.nextHandle)] qid = 1 := by
      simp [countIssued]
    rw [this]

theorem c9_pending_fetch_dedup_witness :
    ((runRegOps ((⟨[], 0, []⟩ : Registry).add 5).2
        [RegOp.add 7, RegOp.settle 7, RegOp.add 5]).add 5).1 =
      ((⟨[], 0, []⟩ : Registry).add 5).1 ∧
    countIssued (((runRegOps ((⟨[], 0, []⟩ : Registry).add 5).2
        [RegOp.add 7, RegOp.settle 7, RegOp.add 5]).add 5).2).issued 5 =
      countIssued ([] : List (Nat × Nat)) 5 + 1 := by
  have h := c9_pending_fetch_dedup ⟨[], 0, []⟩ 5
    [RegOp.add 7, RegOp.settle 7, RegOp.add 5] (by decide)
  exact ⟨h.1, h.2.2 rfl⟩

theorem stale_false_of_changed (st : RunnerState) (p : ReadyStateUpdate)
    (hp : p.stale = some false)
    (hne : (orCrash st (setReadyState st p)).readyState ≠ st.readyState) :
    (orCrash st (setReadyState st p)).readyState.stale = false := by
  by_cases ha : st.readyState.aborted = true
  · rw [setReadyState_of_aborted st p ha] at hne
    exact absurd rfl hne
  · by_cases hdn : st.readyState.done = true ∨ st.readyState.error.isSome = true
    · rw [setReadyState_of_term st p (by simpa using ha) hdn] at hne
      by_cases hab : p.aborted = some true
      · rw [if_pos hab] at hne
        exact absurd rfl hne
      · rw [if_neg hab] at hne
        exact absurd rfl hne
    · push_neg at hdn
      have hlive : liveRS st.readyState := by
        refine ⟨by simpa using ha, by simpa using hdn.1, ?_⟩
        cases he : st.readyState.error with
        | none => rfl
        | some e => exact absurd (by simp [he]) hdn.2
      rw [setReadyState_of_live st p hlive]
      split
      · show (applyUpdate st.readyState p).stale = false
        show p.stale.getD st.readyState.stale = false
        rw [hp]
        rfl
      · show (applyUpdate st.readyState p).stale = false
        show p.stale.getD st.readyState.stale = false
        rw [hp]
        rfl

/-- C10: `stale` is not monotonic within an invocation.  Concretely, a
single required query resolvable from the disk cache produces the
delivered sequence not-ready, then ready+stale, then done+ready with
stale reverted to false once the required fetch resolves; and in general
any `onResolved` turn that changes the ready state at all leaves
`stale = false`, because both of its emissions carry `stale: false`. -/
theorem c10_stale_not_monotonic :
    (runTrace FetchMode.client [⟨1, false, false⟩] initRunnerState
        [Event.register, Event.flush, Event.diskCheck [1], Event.flush,
         Event.resolve 1 [], Event.flush]).map (fun st => st.delivered) =
      some [⟨false, false, none, false, false⟩, ⟨false, false, none, true, true⟩,
        ⟨false, true, none, true, false⟩] ∧
    (∀ st q ids, (onResolved ids q st).readyState ≠ st.readyState →
      (onResolved ids q st).readyState.stale = false) := by
  constructor
  · decide
  · intro st q ids hne
    have hres : onResolved ids q st = onResolvedEmit ids (onResolvedDel q st) := rfl
    rw [hres] at hne ⊢
    have hrs : (onResolvedDel q st).readyState = st.readyState := rfl
    by_cases h1 : hasItems (onResolvedDel q st).remainingRequired = true
    · rw [onResolvedEmit_of_required ids _ ((hasItems_eq_true_iff _).1 h1)] at hne
      exact absurd hrs hne
    · have hreq := (hasItems_eq_false_iff _).1 (Bool.eq_false_iff.mpr h1)
      by_cases h2 : (onResolvedDel q st).remaining.any (fun r => ids.contains r.id) = true
      · rw [onResolvedEmit_of_resolvable ids _ hreq h2] at hne
        exact absurd hrs hne
      · have h2f : (onResolvedDel q st).remaining.any (fun r => ids.contains r.id) = false :=
          Bool.eq_false_iff.mpr h2
        by_cases h3 : hasItems (onResolvedDel q st).remaining = true
        · have hemit : onResolvedEmit ids (onResolvedDel q st) =
              orCrash (onResolvedDel q st) (setReadyState (onResolvedDel q st)
                ⟨none, some false, none, some true, some false⟩) := by
            unfold onResolvedEmit
            rw [if_neg h1, if_neg (by rw [h2f]; exact Bool.false_ne_true), if_pos h3]
          rw [hemit] at hne ⊢
          exact stale_false_of_changed (onResolvedDel q st) _ rfl hne
        · have hemit : onResolvedEmit ids (onResolvedDel q st) =
              orCrash (onResolvedDel q st) (setReadyState (onResolvedDel q st)
                ⟨none, some true, none, some true, some false⟩) := by
            unfold onResolvedEmit
            rw [if_neg h1, if_neg (by rw [h2f]; exact Bool.false_ne_true), if_neg h3]
          rw [hemit] at hne ⊢
          exact stale_false_of_changed (onResolvedDel q st) _ rfl hne

theorem c10_stale_not_monotonic_witness :
    (onResolved [] ⟨1, false, false⟩
        ⟨⟨false, false, none, true, true⟩, false, 2,
          [⟨false, false, none, false, false⟩, ⟨false, false, none, true, true⟩],
          [⟨1, false, false⟩], [⟨1, false, false⟩], [], true, false, 0, none,
          0⟩).readyState.stale = false := by
  exact c10_stale_not_monotonic.2
    ⟨⟨false, false, none, true, true⟩, false, 2,
      [⟨false, false, none, false, false⟩, ⟨false, false, none, true, true⟩],
      [⟨1, false, false⟩], [⟨1, false, false⟩], [], true, false, 0, none, 0⟩
    ⟨1, false, false⟩ [] (by decide)

end QueryRunner
